import Mathlib

/-!
# MSM8960 (Krait) overclock driver: a shallow embedding of `krait_oc.c`

The driver rewrites one row of its own cpufreq frequency ladder, re-registers
that ladder for every possible CPU, and writes four operating points into the
unused rows of three kernel `acpu_level` tables that it finds by symbol name.

Conventions of the embedding:

* `unsigned int` values are `Nat`; the one place where the source can overflow
  (`pll_l_val*HFPLL_FREQ_KHZ`) is reduced modulo `2^32` explicitly.
* C arrays are lists.  Reading or writing past the end of an array is undefined
  behaviour in C and is `none` here.
* Pointers to frequency tables are values of `table_ptr`.
* Kernel memory reached through `kallsyms_lookup_name` is keyed by symbol name.
-/

namespace KraitOC

/-! ## Constants and the frequency ladder (source lines 42-86) -/

/-- Speed of the HFPLL in KHz (`#define HFPLL_FREQ_KHZ 27000`). -/
def HFPLL_FREQ_KHZ : Nat := 27000

/-- Number of values of a C `unsigned int` on the target (32 bits). -/
def UINT_RANGE : Nat := 4294967296

/-- Modelled from the spec: the terminator constant `CPUFREQ_TABLE_END` is declared in the
kernel header `linux/cpufreq.h`, which is not part of this repository.  The spec only calls
it the "terminal sentinel marking end-of-table"; the header defines it as `~1`, which is
`0xFFFFFFFE` once stored in the `unsigned int` field `frequency`. -/
def CPUFREQ_TABLE_END : Nat := 4294967294

/-- Name of the nominal `acpu_freq_tbl` symbol. -/
def ACPU_FREQ_TBL_NOM_NAME : String := "acpu_freq_tbl_8960_kraitv2_nom"

/-- Name of the slow `acpu_freq_tbl` symbol. -/
def ACPU_FREQ_TBL_SLOW_NAME : String := "acpu_freq_tbl_8960_kraitv2_slow"

/-- Name of the fast `acpu_freq_tbl` symbol. -/
def ACPU_FREQ_TBL_FAST_NAME : String := "acpu_freq_tbl_8960_kraitv2_fast"

/-- One row of a cpufreq frequency table (`struct cpufreq_frequency_table`). -/
structure cpufreq_frequency_table where
  index : Nat
  frequency : Nat
deriving DecidableEq

/-- The static initializer of `freq_table` (source lines 63-82): the stock ladder. -/
def freq_table : List cpufreq_frequency_table :=
  [ ⟨0, 384000⟩, ⟨1, 486000⟩, ⟨2, 594000⟩, ⟨3, 702000⟩, ⟨4, 810000⟩, ⟨5, 918000⟩,
    ⟨6, 1026000⟩, ⟨7, 1134000⟩, ⟨8, 1242000⟩, ⟨9, 1350000⟩, ⟨10, 1458000⟩, ⟨11, 1512000⟩,
    ⟨12, 1620000⟩, ⟨13, 1728000⟩, ⟨14, 1809000⟩, ⟨15, 1917000⟩, ⟨16, CPUFREQ_TABLE_END⟩ ]

/-- Number of rows of `freq_table` (`sizeof(freq_table) / sizeof(row)`). -/
def FREQ_TABLE_SIZE : Nat := freq_table.length

/-- First ladder row that `acpu_freq_row_update` copies into the hardware tables. -/
def FREQ_TABLE_START : Nat := 12

/-- The overclock slot of the ladder (`FREQ_TABLE_SIZE - 2`). -/
def FREQ_TABLE_LAST : Nat := FREQ_TABLE_SIZE - 2

/-- The value of the C expression `pll_l_val*HFPLL_FREQ_KHZ`, an `unsigned int` product. -/
def overclock_khz (pll_l_val : Nat) : Nat := (pll_l_val * HFPLL_FREQ_KHZ) % UINT_RANGE

/-- The assignment `tbl[i].frequency = khz` on a ladder. -/
def set_frequency (tbl : List cpufreq_frequency_table) (i khz : Nat) :
    List cpufreq_frequency_table :=
  tbl.modify (fun row => { row with frequency := khz }) i

/-- Source line 197: `freq_table[FREQ_TABLE_LAST].frequency = pll_l_val*HFPLL_FREQ_KHZ`,
applied to a ladder `tbl`. -/
def assign_overclock_slot (tbl : List cpufreq_frequency_table) (pll_l_val : Nat) :
    List cpufreq_frequency_table :=
  set_frequency tbl FREQ_TABLE_LAST (overclock_khz pll_l_val)

/-- Positions at which two ladders hold different rows (or only one of them has a row). -/
def differing_rows (a b : List cpufreq_frequency_table) : List Nat :=
  (List.range (max a.length b.length)).filter (fun i => decide (a[i]? ≠ b[i]?))

/-! ## The frequency-voltage table (source lines 103-115) -/

/-- One breakpoint of the frequency-voltage table (`struct freq_voltage`). -/
structure freq_voltage where
  khz : Nat
  vdd : Nat
deriving DecidableEq

/-- The frequency-voltage table, with its `{ 0, 0 }` terminator. -/
def freq_vdd_table : List freq_voltage :=
  [ ⟨1620000, 1200000⟩, ⟨1728000, 1200000⟩, ⟨1809000, 1250000⟩, ⟨1917000, 1300000⟩, ⟨0, 0⟩ ]

/-- The voltage scan of source lines 146-159 over the rows that are still to be read:
`vdd` starts as the default, the scan stops at the first row whose `khz` is zero, and an
exact match overwrites `vdd` and breaks.  Every table the driver scans ends in a `{ 0, 0 }`
row, so the empty case is never reached from `freq_vdd_table`. -/
def find_vdd : List freq_voltage → Nat → Nat → Nat
  | [], _, vdd => vdd
  | row :: rest, khz, vdd =>
    if row.khz = 0 then vdd
    else if row.khz = khz then row.vdd
    else find_vdd rest khz vdd

/-! ## Hardware scaling tables (source lines 88-101) -/

/-- Clock settings of one operating point (`struct core_speed`). -/
structure core_speed where
  khz : Nat
  src : Int
  pri_src_sel : Nat
  sec_src_sel : Nat
  pll_l_val : Nat
deriving DecidableEq

/-- One row of a hardware scaling table (`struct acpu_level`); `l2_level` is a pointer and
is kept as an address. -/
structure acpu_level where
  use_for_scaling : Nat
  speed : core_speed
  l2_level : Nat
  vdd_core : Nat
deriving DecidableEq

/-- One line of the per-row report printed at source line 165:
`[index] KHz=.. PLL=.. VDD=..`. -/
structure row_report where
  index : Nat
  khz : Nat
  pll : Nat
  vdd : Nat
deriving DecidableEq

/-- The scan `while (acpu_freq_tbl[index].use_for_scaling) index++;` (source lines 150-151),
given the rows of the table from position `index` on.  The result is the position the scan
stops at; running off the end of the array is `none`. -/
def skip_used : List acpu_level → Nat → Option Nat
  | [], _ => none
  | row :: rest, index =>
    if row.use_for_scaling ≠ 0 then skip_used rest (index + 1) else some index

/-- What the three stores of source lines 161-163 make of one row: `speed.khz`,
`speed.pll_l_val` and `vdd_core` are overwritten. -/
def patched_row (row : acpu_level) (khz vdd : Nat) : acpu_level :=
  { row with
    speed := { row.speed with khz := khz, pll_l_val := khz / HFPLL_FREQ_KHZ },
    vdd_core := vdd }

/-- The three stores of source lines 161-163 into row `index` of a scaling table. -/
def write_row (tbl : List acpu_level) (index khz vdd : Nat) : List acpu_level :=
  tbl.modify (fun row => patched_row row khz vdd) index

/-- The `for` loop of `acpu_freq_row_update` (source lines 145-166).  The first argument is
the part of the ladder from row `i` on, so `i++` is a step to the tail; `index` is the
table cursor; the result is the patched table together with the lines printed at line 165.
Reading the ladder or the table past its end is `none`. -/
def row_loop (vdd_uv : Nat) :
    List cpufreq_frequency_table → Nat → List acpu_level → List row_report →
      Option (List acpu_level × List row_report)
  | [], _, _, _ => none
  | entry :: rest, index, tbl, out =>
    if entry.frequency = CPUFREQ_TABLE_END then some (tbl, out)
    else
      match skip_used (tbl.drop index) index with
      | none => none
      | some slot =>
        let vdd := find_vdd freq_vdd_table entry.frequency vdd_uv
        row_loop vdd_uv rest (slot + 1)
          (write_row tbl slot entry.frequency vdd)
          (out ++ [⟨slot, entry.frequency, entry.frequency / HFPLL_FREQ_KHZ, vdd⟩])

/-- The body of `acpu_freq_row_update` once the symbol has resolved: the loop started at
ladder row `FREQ_TABLE_START` with the table cursor at 1. -/
def patch_table (ladder : List cpufreq_frequency_table) (vdd_uv : Nat)
    (tbl : List acpu_level) : Option (List acpu_level × List row_report) :=
  row_loop vdd_uv (ladder.drop FREQ_TABLE_START) 1 tbl []

/-- Positions `index, index + 1, ...` of the given rows whose `use_for_scaling` is clear,
in increasing order. -/
def unused_from : List acpu_level → Nat → List Nat
  | [], _ => []
  | row :: rest, index =>
    if row.use_for_scaling = 0 then index :: unused_from rest (index + 1)
    else unused_from rest (index + 1)

/-- The rows of a scaling table at position 1 or later whose `use_for_scaling` is clear. -/
def unused_slots (tbl : List acpu_level) : List Nat := unused_from (tbl.drop 1) 1

/-! ## Kernel and module state -/

/-- A pointer to a cpufreq frequency table: null, the driver's own `freq_table`, or some
other table identified by its address. -/
inductive table_ptr where
  | null : table_ptr
  | ladder : table_ptr
  | other : Nat → table_ptr
deriving DecidableEq

/-- The state the driver reads and writes.

* `cpuinfo_max_freq` is `policy->cpuinfo.max_freq` of the policy that `cpufreq_cpu_get(0)`
  returns; the source dereferences that pointer unchecked, and the embedding takes the
  policy to exist.
* `show_table cpu` is the per-CPU frequency table registration that
  `cpufreq_frequency_table_get_attr`, `cpufreq_frequency_table_put_attr` and
  `cpufreq_frequency_get_table` access.
* `possible_cpus` are the CPUs `for_each_possible_cpu` visits, in order.
* `acpu_tbl name` is the kernel array that lives at symbol `name`.
* `freq_table`, `orig_table`, `cpufreq_cpu_get_new` are the driver's globals; the last is a
  function pointer kept as an address, 0 for null. -/
structure State where
  cpuinfo_max_freq : Nat
  show_table : Nat → table_ptr
  possible_cpus : List Nat
  acpu_tbl : String → List acpu_level
  freq_table : List cpufreq_frequency_table
  orig_table : table_ptr
  cpufreq_cpu_get_new : Nat

/-- Modelled from the spec: the kernel function `cpufreq_frequency_get_table(cpu)` is not
part of this repository; the spec has it "fetch the currently active frequency table for a
CPU", that is, read the per-CPU registration. -/
def cpufreq_frequency_get_table (show_table : Nat → table_ptr) (cpu : Nat) : table_ptr :=
  show_table cpu

/-- Modelled from the spec: the kernel function `cpufreq_frequency_table_put_attr(cpu)` is
not part of this repository; the spec has it detach the per-CPU table registration, which
leaves a null pointer registered for `cpu`. -/
def cpufreq_frequency_table_put_attr (show_table : Nat → table_ptr) (cpu : Nat) :
    Nat → table_ptr :=
  fun c => if c = cpu then table_ptr.null else show_table c

/-- Modelled from the spec: the kernel function `cpufreq_frequency_table_get_attr(table,
cpu)` is not part of this repository; the spec has it attach `table` as the per-CPU table
registration of `cpu`. -/
def cpufreq_frequency_table_get_attr (show_table : Nat → table_ptr) (table : table_ptr)
    (cpu : Nat) : Nat → table_ptr :=
  fun c => if c = cpu then table else show_table c

/-- The loop `for_each_possible_cpu(cpu) { put_attr(cpu); get_attr(table, cpu); }` of source
lines 202-205 and 231-234, over the CPUs still to visit. -/
def reattach_all (table : table_ptr) : List Nat → (Nat → table_ptr) → (Nat → table_ptr)
  | [], show_table => show_table
  | cpu :: rest, show_table =>
    reattach_all table rest
      (cpufreq_frequency_table_get_attr
        (cpufreq_frequency_table_put_attr show_table cpu) table cpu)

/-! ## The driver's functions (source lines 128-238) -/

/-- `acpu_freq_row_update(symbol_name)`: `kallsyms_lookup_name` is the resolver (0 for a
symbol that is not found), `vdd_uv` the module parameter.  An unresolved symbol returns
early; otherwise the array at that symbol is patched in place. -/
def acpu_freq_row_update (kallsyms_lookup_name : String → Nat) (vdd_uv : Nat)
    (symbol_name : String) (s : State) : Option State :=
  if kallsyms_lookup_name symbol_name = 0 then some s
  else
    match patch_table s.freq_table vdd_uv (s.acpu_tbl symbol_name) with
    | none => none
    | some (tbl, _) =>
      some { s with acpu_tbl := fun name => if name = symbol_name then tbl else s.acpu_tbl name }

/-- `overclock_init`: the result is the state after the call and the returned `int`. -/
def overclock_init (kallsyms_lookup_name : String → Nat) (pll_l_val vdd_uv : Nat)
    (s : State) : Option (State × Int) :=
  let cpufreq_cpu_get_addr := kallsyms_lookup_name "cpufreq_cpu_get"
  if cpufreq_cpu_get_addr = 0 then some (s, 0)
  else
    let s1 : State := { s with cpufreq_cpu_get_new := cpufreq_cpu_get_addr }
    let s2 : State := { s1 with cpuinfo_max_freq := overclock_khz pll_l_val }
    let s3 : State := { s2 with freq_table := assign_overclock_slot s2.freq_table pll_l_val }
    let s4 : State := { s3 with orig_table := cpufreq_frequency_get_table s3.show_table 0 }
    let s5 : State :=
      { s4 with show_table := reattach_all table_ptr.ladder s4.possible_cpus s4.show_table }
    match acpu_freq_row_update kallsyms_lookup_name vdd_uv ACPU_FREQ_TBL_NOM_NAME s5 with
    | none => none
    | some s6 =>
      match acpu_freq_row_update kallsyms_lookup_name vdd_uv ACPU_FREQ_TBL_SLOW_NAME s6 with
      | none => none
      | some s7 =>
        match acpu_freq_row_update kallsyms_lookup_name vdd_uv ACPU_FREQ_TBL_FAST_NAME s7 with
        | none => none
        | some s8 => some (s8, 0)

/-- `overclock_exit`.  The policy is fetched through the function pointer
`cpufreq_cpu_get_new`; calling it while it is still null is undefined and is `none`. -/
def overclock_exit (kallsyms_lookup_name : String → Nat) (s : State) : Option State :=
  if kallsyms_lookup_name "cpufreq_cpu_get" ≠ 0 then
    if s.cpufreq_cpu_get_new = 0 then none
    else
      let s1 : State := { s with cpuinfo_max_freq := 1512000 }
      some { s1 with show_table := reattach_all s1.orig_table s1.possible_cpus s1.show_table }
  else some s

/-- The table names `overclock_init` patches, in call order. -/
def acpu_table_names : List String :=
  [ACPU_FREQ_TBL_NOM_NAME, ACPU_FREQ_TBL_SLOW_NAME, ACPU_FREQ_TBL_FAST_NAME]

/-- The unchecked precondition of the slot search on one table: at least four rows at
position 1 or later have `use_for_scaling` clear. -/
def table_ready (tbl : List acpu_level) : Prop := 4 ≤ (unused_slots tbl).length

instance (tbl : List acpu_level) : Decidable (table_ready tbl) := by
  unfold table_ready; infer_instance

/-- The line printed at source line 165 when ladder row `entry` is written at row `slot`
of a scaling table. -/
def report_of (vdd_uv : Nat) (entry : cpufreq_frequency_table) (slot : Nat) : row_report :=
  ⟨slot, entry.frequency, entry.frequency / HFPLL_FREQ_KHZ,
    find_vdd freq_vdd_table entry.frequency vdd_uv⟩

/-- The stores of source lines 161-163 that belong to one printed line. -/
def write_report (tbl : List acpu_level) (r : row_report) : List acpu_level :=
  write_row tbl r.index r.khz r.vdd

/-- The ladder rows `acpu_freq_row_update` copies when the ladder was built with
multiplier `pll_l_val`: rows 12 to 15. -/
def processed_rows (pll_l_val : Nat) : List cpufreq_frequency_table :=
  [⟨12, 1620000⟩, ⟨13, 1728000⟩, ⟨14, 1809000⟩, ⟨15, overclock_khz pll_l_val⟩]

/-- The state after source lines 191-205 of `overclock_init`: the function pointer, the
policy, the ladder, the saved table and the per-CPU registrations are set; the hardware
tables are still to be patched. -/
def policy_patched (kallsyms_lookup_name : String → Nat) (pll_l_val : Nat) (s : State) : State :=
  { s with
    cpufreq_cpu_get_new := kallsyms_lookup_name "cpufreq_cpu_get",
    cpuinfo_max_freq := overclock_khz pll_l_val,
    freq_table := assign_overclock_slot s.freq_table pll_l_val,
    orig_table := cpufreq_frequency_get_table s.show_table 0,
    show_table := reattach_all table_ptr.ladder s.possible_cpus s.show_table }

/-- The per-table patch of every table that resolves is defined (no scan leaves its
array). -/
def patch_defined (kallsyms_lookup_name : String → Nat) (pll_l_val vdd_uv : Nat)
    (s : State) : Prop :=
  ∀ name ∈ acpu_table_names, kallsyms_lookup_name name ≠ 0 →
    (patch_table (assign_overclock_slot s.freq_table pll_l_val) vdd_uv
      (s.acpu_tbl name)).isSome = true

/-- A sample scaling table: rows 0, 1 and 3 are in use, rows 2, 4, 5, 6 and 7 are not. -/
def sample_tbl : List acpu_level :=
  [ ⟨1, ⟨384000, 1, 0, 0, 0⟩, 10, 950000⟩, ⟨1, ⟨486000, 2, 0, 0, 18⟩, 10, 950000⟩,
    ⟨0, ⟨540000, 2, 0, 0, 20⟩, 11, 975000⟩, ⟨1, ⟨594000, 2, 0, 0, 22⟩, 11, 975000⟩,
    ⟨0, ⟨0, 0, 0, 0, 0⟩, 0, 0⟩, ⟨0, ⟨0, 0, 0, 0, 0⟩, 0, 0⟩,
    ⟨0, ⟨0, 0, 0, 0, 0⟩, 0, 0⟩, ⟨0, ⟨0, 0, 0, 0, 0⟩, 0, 0⟩ ]

/-- A sample resolver under which every symbol the driver looks up is found. -/
def sample_ksym : String → Nat :=
  fun name =>
    if name = "cpufreq_cpu_get" then 3221487616
    else if name = ACPU_FREQ_TBL_NOM_NAME then 3229614080
    else if name = ACPU_FREQ_TBL_SLOW_NAME then 3229615104
    else if name = ACPU_FREQ_TBL_FAST_NAME then 3229616128
    else 0

/-- A sample resolver under which the slow table is not found. -/
def sample_ksym_no_slow : String → Nat :=
  fun name => if name = ACPU_FREQ_TBL_SLOW_NAME then 0 else sample_ksym name

/-- A sample resolver under which nothing is found. -/
def sample_ksym_none : String → Nat := fun _ => 0

/-- A sample state right after module load on a two-core system: the stock table is
registered for both cores, the three hardware tables hold the sample table, and the
driver's globals have their static initial values. -/
def sample_state : State :=
  { cpuinfo_max_freq := 1512000,
    show_table := fun cpu => if cpu < 2 then table_ptr.other 3230000000 else table_ptr.null,
    possible_cpus := [0, 1],
    acpu_tbl := fun _ => sample_tbl,
    freq_table := freq_table,
    orig_table := table_ptr.null,
    cpufreq_cpu_get_new := 0 }

/-- A sample state whose policy maximum is not the stock 1512000 and whose second core has
its own table registered. -/
def sample_state_odd : State :=
  { sample_state with
    cpuinfo_max_freq := 1728000,
    show_table := fun cpu =>
      if cpu = 0 then table_ptr.other 3230000000
      else if cpu = 1 then table_ptr.other 3230004096
      else table_ptr.null }

/-! ## Theorems -/

/-! ### The ladder -/

/-- The stock ladder has 17 rows and the overclock slot is row 15. -/
theorem freq_table_shape :
    freq_table.length = 17 ∧ FREQ_TABLE_SIZE = 17 ∧ FREQ_TABLE_LAST = 15 := by
  decide

/-- The built ladder, row by row. -/
theorem assign_overclock_slot_eq (m : Nat) :
    assign_overclock_slot freq_table m =
      [ ⟨0, 384000⟩, ⟨1, 486000⟩, ⟨2, 594000⟩, ⟨3, 702000⟩, ⟨4, 810000⟩, ⟨5, 918000⟩,
        ⟨6, 1026000⟩, ⟨7, 1134000⟩, ⟨8, 1242000⟩, ⟨9, 1350000⟩, ⟨10, 1458000⟩,
        ⟨11, 1512000⟩, ⟨12, 1620000⟩, ⟨13, 1728000⟩, ⟨14, 1809000⟩,
        ⟨15, overclock_khz m⟩, ⟨16, CPUFREQ_TABLE_END⟩ ] := by
  rfl

/-- C1, as stated, fails at the default multiplier 71 (0x47): the built ladder is the stock
ladder itself, so the number of rows in which the two differ is 0, not 1. -/
theorem C1_default_multiplier_changes_no_row :
    assign_overclock_slot freq_table 71 = freq_table ∧
    ¬ (differing_rows (assign_overclock_slot freq_table 71) freq_table).length = 1 := by
  decide

/-- C1, amended: for every multiplier `m` the built ladder has the 17 rows of the stock
ladder; the rows in which it differs from stock are none when `m * 27000 mod 2^32` is the
stock value 1917000 and exactly the overclock slot (row 15, not the terminator row 16)
otherwise; the slot holds `m * 27000` reduced modulo `2^32`, which is `m * 27000` itself
whenever `m ≤ 159072`. -/
theorem C1_ladder_differs_at_most_in_slot (m : Nat) :
    (assign_overclock_slot freq_table m).length = freq_table.length ∧
    freq_table.length = 17 ∧
    differing_rows (assign_overclock_slot freq_table m) freq_table =
      (if overclock_khz m = 1917000 then [] else [FREQ_TABLE_LAST]) ∧
    FREQ_TABLE_LAST = 15 ∧ FREQ_TABLE_LAST < freq_table.length - 1 ∧
    (assign_overclock_slot freq_table m)[FREQ_TABLE_LAST]? =
      some ⟨15, (m * 27000) % 4294967296⟩ ∧
    (m ≤ 159072 → (assign_overclock_slot freq_table m)[FREQ_TABLE_LAST]? =
      some ⟨15, m * 27000⟩) := by
  have hk : overclock_khz m = (m * 27000) % 4294967296 := rfl
  have hlast : FREQ_TABLE_LAST = 15 := by decide
  refine ⟨?_, by decide, ?_, hlast, by decide, ?_, ?_⟩
  · rw [assign_overclock_slot_eq]; rfl
  · rw [assign_overclock_slot_eq, hlast]
    by_cases h : overclock_khz m = 1917000
    · rw [if_pos h, h]; decide
    · rw [if_neg h]
      simp [differing_rows, freq_table, List.range, List.range.loop, List.filter, h]
  · rw [assign_overclock_slot_eq, hlast, hk]; rfl
  · intro hm
    have hlt : m * 27000 < 4294967296 := by omega
    rw [assign_overclock_slot_eq, hlast, hk, Nat.mod_eq_of_lt hlt]; rfl

/-- C1 (amended), evaluated at the multipliers 71 and 72. -/
theorem C1_ladder_differs_at_most_in_slot_witness :
    differing_rows (assign_overclock_slot freq_table 71) freq_table = [] ∧
    differing_rows (assign_overclock_slot freq_table 72) freq_table = [15] ∧
    (assign_overclock_slot freq_table 72)[15]? = some ⟨15, 1944000⟩ := by
  refine ⟨?_, ?_, ?_⟩
  · have h := (C1_ladder_differs_at_most_in_slot 71).2.2.1
    rw [if_pos (by decide)] at h; exact h
  · have h := (C1_ladder_differs_at_most_in_slot 72).2.2.1
    rw [if_neg (by decide)] at h; exact h
  · exact (C1_ladder_differs_at_most_in_slot 72).2.2.2.2.2.2 (by decide)

/-- C2: for every multiplier `m` the overclock slot is row 15 (`FREQ_TABLE_LAST = 17 - 2`,
one below the terminator row 16); every row of the built ladder other than row 15 is the
stock row, in particular rows 12, 13, 14 and the terminator; row 15 keeps its index; and
the ladder keeps its 17 rows. -/
theorem C2_ladder_frame (m : Nat) :
    FREQ_TABLE_LAST = 15 ∧ FREQ_TABLE_LAST = 17 - 2 ∧ FREQ_TABLE_LAST + 1 = freq_table.length - 1 ∧
    (assign_overclock_slot freq_table m).length = 17 ∧ freq_table.length = 17 ∧
    (∀ i, i ≠ FREQ_TABLE_LAST → (assign_overclock_slot freq_table m)[i]? = freq_table[i]?) ∧
    (assign_overclock_slot freq_table m)[16]? = some ⟨16, CPUFREQ_TABLE_END⟩ ∧
    (assign_overclock_slot freq_table m)[12]? = some ⟨12, 1620000⟩ ∧
    (assign_overclock_slot freq_table m)[13]? = some ⟨13, 1728000⟩ ∧
    (assign_overclock_slot freq_table m)[14]? = some ⟨14, 1809000⟩ ∧
    (assign_overclock_slot freq_table m).map (fun row => row.index) =
      freq_table.map (fun row => row.index) := by
  refine ⟨by decide, by decide, by decide, ?_, by decide, ?_, ?_, ?_, ?_, ?_, ?_⟩
  · rw [assign_overclock_slot_eq]; rfl
  · intro i hi
    unfold assign_overclock_slot set_frequency
    exact List.getElem?_modify_ne _ _ (Ne.symm hi)
  all_goals rw [assign_overclock_slot_eq]; rfl

/-- C2, evaluated at the multiplier 80 and row 3. -/
theorem C2_ladder_frame_witness :
    (assign_overclock_slot freq_table 80)[3]? = freq_table[3]? :=
  (C2_ladder_frame 80).2.2.2.2.2.1 3 (by decide)

/-! ### The voltage lookup -/

/-- The lookup on a frequency that is none of the four breakpoints gives the default. -/
theorem find_vdd_default (f d : Nat)
    (h : f ≠ 1620000 ∧ f ≠ 1728000 ∧ f ≠ 1809000 ∧ f ≠ 1917000) :
    find_vdd freq_vdd_table f d = d := by
  obtain ⟨h1, h2, h3, h4⟩ := h
  simp [find_vdd, freq_vdd_table, Ne.symm h1, Ne.symm h2, Ne.symm h3, Ne.symm h4]

/-- C3: the voltage lookup is exact-match-or-default.  For every default `d`, each of the
four breakpoints resolves to its own voltage (stated both one by one and for every row of
the table before the terminator), and every frequency that is not a breakpoint, 0
included, resolves to `d`. -/
theorem C3_exact_match_or_default (d : Nat) :
    find_vdd freq_vdd_table 1620000 d = 1200000 ∧
    find_vdd freq_vdd_table 1728000 d = 1200000 ∧
    find_vdd freq_vdd_table 1809000 d = 1250000 ∧
    find_vdd freq_vdd_table 1917000 d = 1300000 ∧
    (∀ row ∈ freq_vdd_table, row.khz ≠ 0 → find_vdd freq_vdd_table row.khz d = row.vdd) ∧
    (∀ f, f ≠ 1620000 ∧ f ≠ 1728000 ∧ f ≠ 1809000 ∧ f ≠ 1917000 →
      find_vdd freq_vdd_table f d = d) ∧
    find_vdd freq_vdd_table 0 d = d := by
  refine ⟨rfl, rfl, rfl, rfl, ?_, fun f hf => find_vdd_default f d hf, rfl⟩
  intro row hrow hnz
  simp only [freq_vdd_table, List.mem_cons, List.mem_singleton, List.not_mem_nil,
    or_false] at hrow
  rcases hrow with h | h | h | h | h
  all_goals subst h
  · rfl
  · rfl
  · rfl
  · rfl
  · exact absurd rfl hnz

/-- C3, evaluated at the unlisted frequency 2000000 with default 1275000 and at the
breakpoint row for 1809000. -/
theorem C3_exact_match_or_default_witness :
    find_vdd freq_vdd_table 2000000 1275000 = 1275000 ∧
    find_vdd freq_vdd_table 1809000 1275000 = 1250000 :=
  ⟨(C3_exact_match_or_default 1275000).2.2.2.2.2.1 2000000 (by decide),
   (C3_exact_match_or_default 1275000).2.2.2.2.1 ⟨1809000, 1250000⟩ (by decide) (by decide)⟩

/-! ### The slot search -/

/-- The `while` scan stops at the first unused row, if there is one. -/
theorem skip_used_eq_head (rows : List acpu_level) (index : Nat) :
    skip_used rows index = (unused_from rows index).head? := by
  induction rows generalizing index with
  | nil => rfl
  | cons row rest ih =>
    by_cases h : row.use_for_scaling = 0
    · simp [skip_used, unused_from, h]
    · simp [skip_used, unused_from, h, ih]

/-- Every listed position is at or after the start and holds a row whose flag is clear. -/
theorem unused_from_mem (rows : List acpu_level) (index x : Nat) :
    x ∈ unused_from rows index ↔
      index ≤ x ∧ ∃ row, rows[x - index]? = some row ∧ row.use_for_scaling = 0 := by
  induction rows generalizing index with
  | nil => simp [unused_from]
  | cons row rest ih =>
    have hstep : ∀ y, index + 1 ≤ y → (row :: rest)[y - index]? = rest[y - (index + 1)]? := by
      intro y hy
      have : y - index = (y - (index + 1)) + 1 := by omega
      rw [this, List.getElem?_cons_succ]
    by_cases h : row.use_for_scaling = 0
    · simp only [unused_from, h, if_true, List.mem_cons, ih]
      constructor
      · rintro (rfl | ⟨hle, r, hr, hz⟩)
        · exact ⟨Nat.le_refl _, row, by simp, h⟩
        · exact ⟨by omega, r, by rw [hstep x hle]; exact hr, hz⟩
      · rintro ⟨hle, r, hr, hz⟩
        by_cases hx : x = index
        · exact Or.inl hx
        · have hle2 : index + 1 ≤ x := by omega
          exact Or.inr ⟨hle2, r, by rw [← hstep x hle2]; exact hr, hz⟩
    · simp only [unused_from, h, if_false, ih]
      constructor
      · rintro ⟨hle, r, hr, hz⟩
        exact ⟨by omega, r, by rw [hstep x hle]; exact hr, hz⟩
      · rintro ⟨hle, r, hr, hz⟩
        by_cases hx : x = index
        · subst hx
          simp at hr
          subst hr
          exact absurd hz h
        · have hle2 : index + 1 ≤ x := by omega
          exact ⟨hle2, r, by rw [← hstep x hle2]; exact hr, hz⟩

/-- The unused rows are listed in strictly increasing order. -/
theorem unused_from_pairwise (rows : List acpu_level) (index : Nat) :
    (unused_from rows index).Pairwise (fun a b => a < b) := by
  induction rows generalizing index with
  | nil => simp [unused_from]
  | cons row rest ih =>
    by_cases h : row.use_for_scaling = 0
    · simp only [unused_from, h, if_true, List.pairwise_cons]
      refine ⟨?_, ih (index + 1)⟩
      intro x hx
      have := ((unused_from_mem rest (index + 1) x).1 hx).1
      omega
    · simp only [unused_from, h, if_false]
      exact ih (index + 1)

/-- After the first unused row come the unused rows of the rest of the array. -/
theorem unused_from_next (rows : List acpu_level) (index slot : Nat) (more : List Nat)
    (h : unused_from rows index = slot :: more) :
    index ≤ slot ∧ unused_from (rows.drop (slot + 1 - index)) (slot + 1) = more := by
  induction rows generalizing index with
  | nil => simp [unused_from] at h
  | cons row rest ih =>
    by_cases hz : row.use_for_scaling = 0
    · simp only [unused_from, hz, if_true, List.cons.injEq] at h
      obtain ⟨rfl, rfl⟩ := h
      refine ⟨Nat.le_refl _, ?_⟩
      have : index + 1 - index = 1 := by omega
      rw [this]; rfl
    · simp only [unused_from, hz, if_false] at h
      obtain ⟨hle, hrest⟩ := ih (index + 1) h
      refine ⟨by omega, ?_⟩
      have : slot + 1 - index = (slot + 1 - (index + 1)) + 1 := by omega
      rw [this, List.drop_succ_cons]
      exact hrest

/-- The same step, for a table read from position `index` on. -/
theorem unused_from_drop_next (tbl : List acpu_level) (index slot : Nat) (more : List Nat)
    (h : unused_from (tbl.drop index) index = slot :: more) :
    index ≤ slot ∧ unused_from (tbl.drop (slot + 1)) (slot + 1) = more := by
  obtain ⟨hle, hrest⟩ := unused_from_next (tbl.drop index) index slot more h
  refine ⟨hle, ?_⟩
  rw [List.drop_drop] at hrest
  have : index + (slot + 1 - index) = slot + 1 := by omega
  rw [this] at hrest
  exact hrest

/-- The rows of a table that count as unused slots: position 1 or later, flag clear. -/
theorem unused_slots_mem (tbl : List acpu_level) (x : Nat) :
    x ∈ unused_slots tbl ↔
      1 ≤ x ∧ ∃ row, tbl[x]? = some row ∧ row.use_for_scaling = 0 := by
  unfold unused_slots
  rw [unused_from_mem]
  constructor
  · rintro ⟨hle, r, hr, hz⟩
    refine ⟨hle, r, ?_, hz⟩
    rw [List.getElem?_drop] at hr
    have : 1 + (x - 1) = x := by omega
    rw [this] at hr
    exact hr
  · rintro ⟨hle, r, hr, hz⟩
    refine ⟨hle, r, ?_, hz⟩
    rw [List.getElem?_drop]
    have : 1 + (x - 1) = x := by omega
    rw [this]
    exact hr

/-- A store into row `slot` leaves the rows after it as they were. -/
theorem write_row_drop (tbl : List acpu_level) (slot khz vdd : Nat) :
    (write_row tbl slot khz vdd).drop (slot + 1) = tbl.drop (slot + 1) := by
  unfold write_row
  exact List.drop_modify_of_lt _ _ _ _ (Nat.lt_succ_self slot)

/-- The loop on ladder rows `es` followed by a terminator row: when the table still has an
unused row for each of them, the loop writes them, in order, into the next unused rows. -/
theorem row_loop_some (vdd_uv : Nat) (term : cpufreq_frequency_table)
    (rest : List cpufreq_frequency_table) (hterm : term.frequency = CPUFREQ_TABLE_END)
    (es : List cpufreq_frequency_table) :
    ∀ (index : Nat) (tbl : List acpu_level) (out : List row_report),
      (∀ e ∈ es, e.frequency ≠ CPUFREQ_TABLE_END) →
      es.length ≤ (unused_from (tbl.drop index) index).length →
      row_loop vdd_uv (es ++ term :: rest) index tbl out =
        some ((List.zipWith (report_of vdd_uv) es
                (unused_from (tbl.drop index) index)).foldl write_report tbl,
              out ++ List.zipWith (report_of vdd_uv) es
                (unused_from (tbl.drop index) index)) := by
  induction es with
  | nil =>
    intro index tbl out _ _
    simp [row_loop, hterm]
  | cons e es ih =>
    intro index tbl out hne hlen
    have he : e.frequency ≠ CPUFREQ_TABLE_END := hne e (List.mem_cons_self _ _)
    cases hu : unused_from (tbl.drop index) index with
    | nil => rw [hu] at hlen; simp at hlen
    | cons slot more =>
      obtain ⟨_, hnext⟩ := unused_from_drop_next tbl index slot more hu
      have hskip : skip_used (tbl.drop index) index = some slot := by
        rw [skip_used_eq_head, hu]; rfl
      have hlen2 : es.length ≤ more.length := by
        rw [hu] at hlen; simpa using hlen
      have hdrop : unused_from
          ((write_row tbl slot e.frequency
            (find_vdd freq_vdd_table e.frequency vdd_uv)).drop (slot + 1)) (slot + 1) = more := by
        rw [write_row_drop]; exact hnext
      have hih := ih (slot + 1)
        (write_row tbl slot e.frequency (find_vdd freq_vdd_table e.frequency vdd_uv))
        (out ++ [report_of vdd_uv e slot])
        (fun x hx => hne x (List.mem_cons_of_mem _ hx))
        (by rw [hdrop]; exact hlen2)
      rw [hdrop] at hih
      simp only [List.cons_append, row_loop, he, if_false, hskip]
      refine hih.trans ?_
      simp [List.zipWith_cons_cons, List.foldl_cons, write_report, report_of]

/-- The loop on ladder rows `es` followed by a terminator row: when the table has fewer
unused rows than `es` has rows, the scan runs off the end of the table. -/
theorem row_loop_none (vdd_uv : Nat) (term : cpufreq_frequency_table)
    (rest : List cpufreq_frequency_table)
    (es : List cpufreq_frequency_table) :
    ∀ (index : Nat) (tbl : List acpu_level) (out : List row_report),
      (∀ e ∈ es, e.frequency ≠ CPUFREQ_TABLE_END) →
      (unused_from (tbl.drop index) index).length < es.length →
      row_loop vdd_uv (es ++ term :: rest) index tbl out = none := by
  induction es with
  | nil => intro index tbl out _ hlen; simp at hlen
  | cons e es ih =>
    intro index tbl out hne hlen
    have he : e.frequency ≠ CPUFREQ_TABLE_END := hne e (List.mem_cons_self _ _)
    cases hu : unused_from (tbl.drop index) index with
    | nil =>
      have hskip : skip_used (tbl.drop index) index = none := by
        rw [skip_used_eq_head, hu]; rfl
      simp only [List.cons_append, row_loop, he, if_false, hskip]
    | cons slot more =>
      obtain ⟨_, hnext⟩ := unused_from_drop_next tbl index slot more hu
      have hskip : skip_used (tbl.drop index) index = some slot := by
        rw [skip_used_eq_head, hu]; rfl
      have hlen2 : more.length < es.length := by
        rw [hu] at hlen; simpa using hlen
      have hdrop : unused_from
          ((write_row tbl slot e.frequency
            (find_vdd freq_vdd_table e.frequency vdd_uv)).drop (slot + 1)) (slot + 1) = more := by
        rw [write_row_drop]; exact hnext
      simp only [List.cons_append, row_loop, he, if_false, hskip]
      exact ih (slot + 1) _ _ (fun x hx => hne x (List.mem_cons_of_mem _ hx))
        (by rw [hdrop]; exact hlen2)

/-! ### The per-table patch on the built ladder -/

/-- The overclock frequency is a multiple of 8 and the terminator is not. -/
theorem overclock_khz_ne_end (m : Nat) : overclock_khz m ≠ CPUFREQ_TABLE_END := by
  unfold overclock_khz HFPLL_FREQ_KHZ UINT_RANGE CPUFREQ_TABLE_END
  omega

/-- From row 12 on, the built ladder is the four processed rows and the terminator. -/
theorem built_ladder_drop (m : Nat) :
    (assign_overclock_slot freq_table m).drop FREQ_TABLE_START =
      processed_rows m ++ [⟨16, CPUFREQ_TABLE_END⟩] := by
  rw [assign_overclock_slot_eq]; rfl

/-- None of the processed rows holds the terminator value. -/
theorem processed_rows_ne_end (m : Nat) :
    ∀ e ∈ processed_rows m, e.frequency ≠ CPUFREQ_TABLE_END := by
  intro e he
  simp only [processed_rows, List.mem_cons, List.mem_singleton, List.not_mem_nil,
    or_false] at he
  rcases he with h | h | h | h
  · subst h; decide
  · subst h; decide
  · subst h; decide
  · subst h; exact overclock_khz_ne_end m

/-- The per-table patch on the built ladder: defined exactly on the tables with four unused
rows at position 1 or later, and then the four processed rows go, in order, into the first
four of them. -/
theorem patch_table_built (m vdd_uv : Nat) (tbl : List acpu_level) :
    patch_table (assign_overclock_slot freq_table m) vdd_uv tbl =
      if table_ready tbl then
        some ((List.zipWith (report_of vdd_uv) (processed_rows m)
                (unused_slots tbl)).foldl write_report tbl,
              List.zipWith (report_of vdd_uv) (processed_rows m) (unused_slots tbl))
      else none := by
  unfold patch_table
  rw [built_ladder_drop]
  by_cases h : table_ready tbl
  · rw [if_pos h]
    have := row_loop_some vdd_uv ⟨16, CPUFREQ_TABLE_END⟩ [] rfl (processed_rows m) 1 tbl []
      (processed_rows_ne_end m) h
    simpa [unused_slots] using this
  · rw [if_neg h]
    have hlt : (unused_from (tbl.drop 1) 1).length < (processed_rows m).length := by
      have : ¬ 4 ≤ (unused_slots tbl).length := h
      unfold unused_slots at this
      simp only [processed_rows, List.length_cons, List.length_nil]
      omega
    exact row_loop_none vdd_uv ⟨16, CPUFREQ_TABLE_END⟩ [] (processed_rows m) 1 tbl []
      (processed_rows_ne_end m) hlt

/-- The table positions of the printed lines are the slots taken. -/
theorem zipWith_report_index (vdd_uv : Nat) (es : List cpufreq_frequency_table) :
    ∀ slots : List Nat, es.length ≤ slots.length →
      (List.zipWith (report_of vdd_uv) es slots).map (fun r => r.index) =
        slots.take es.length := by
  induction es with
  | nil => intro slots _; simp
  | cons e es ih =>
    intro slots hlen
    cases slots with
    | nil => simp at hlen
    | cons x xs =>
      have hlen2 : es.length ≤ xs.length := by simpa using hlen
      simp [List.zipWith_cons_cons, ih xs hlen2, report_of]

/-- The frequencies of the printed lines are those of the ladder rows. -/
theorem zipWith_report_khz (vdd_uv : Nat) (es : List cpufreq_frequency_table) :
    ∀ slots : List Nat, es.length ≤ slots.length →
      (List.zipWith (report_of vdd_uv) es slots).map (fun r => r.khz) =
        es.map (fun e => e.frequency) := by
  induction es with
  | nil => intro slots _; simp
  | cons e es ih =>
    intro slots hlen
    cases slots with
    | nil => simp at hlen
    | cons x xs =>
      have hlen2 : es.length ≤ xs.length := by simpa using hlen
      simp [List.zipWith_cons_cons, ih xs hlen2, report_of]

/-- Every printed line carries the PLL value and the voltage computed from its frequency. -/
theorem zipWith_report_fields (vdd_uv : Nat) (es : List cpufreq_frequency_table) :
    ∀ slots : List Nat, ∀ r ∈ List.zipWith (report_of vdd_uv) es slots,
      r.pll = r.khz / HFPLL_FREQ_KHZ ∧ r.vdd = find_vdd freq_vdd_table r.khz vdd_uv := by
  induction es with
  | nil => intro slots r hr; simp at hr
  | cons e es ih =>
    intro slots r hr
    cases slots with
    | nil => simp at hr
    | cons x xs =>
      simp only [List.zipWith_cons_cons, List.mem_cons] at hr
      rcases hr with h | h
      · subst h; exact ⟨rfl, rfl⟩
      · exact ih xs r h

/-- A sequence of stores leaves every row that is not stored to as it was. -/
theorem foldl_write_other (rs : List row_report) :
    ∀ (tbl : List acpu_level) (j : Nat), (∀ r ∈ rs, r.index ≠ j) →
      (rs.foldl write_report tbl)[j]? = tbl[j]? := by
  induction rs with
  | nil => intro tbl j _; rfl
  | cons r rs ih =>
    intro tbl j h
    rw [List.foldl_cons, ih _ j (fun x hx => h x (List.mem_cons_of_mem _ hx))]
    unfold write_report write_row
    exact List.getElem?_modify_ne _ _ (h r (List.mem_cons_self _ _))

/-- A sequence of stores to pairwise distinct rows leaves in each of them the row patched
with the values of its own line. -/
theorem foldl_write_mem (rs : List row_report) :
    ∀ (tbl : List acpu_level), rs.Pairwise (fun a b => a.index < b.index) →
      ∀ r ∈ rs, (rs.foldl write_report tbl)[r.index]? =
        (tbl[r.index]?).map (fun row => patched_row row r.khz r.vdd) := by
  induction rs with
  | nil => intro tbl _ r hr; simp at hr
  | cons r0 rs ih =>
    intro tbl hp r hr
    rw [List.pairwise_cons] at hp
    rw [List.foldl_cons]
    rcases List.mem_cons.1 hr with h | h
    · subst h
      rw [foldl_write_other rs _ _ (fun x hx => Nat.ne_of_gt (hp.1 x hx))]
      unfold write_report write_row
      rw [List.getElem?_modify_eq]
      rfl
    · rw [ih _ hp.2 r h]
      unfold write_report write_row
      rw [List.getElem?_modify_ne _ _ (Nat.ne_of_lt (hp.1 r h))]

/-- A sequence of stores keeps the length of the table. -/
theorem foldl_write_length (rs : List row_report) :
    ∀ (tbl : List acpu_level), (rs.foldl write_report tbl).length = tbl.length := by
  induction rs with
  | nil => intro tbl; rfl
  | cons r rs ih =>
    intro tbl
    rw [List.foldl_cons, ih]
    simp [write_report, write_row]

/-- On a table with four unused rows the printed lines name strictly increasing rows. -/
theorem reports_pairwise (m vdd_uv : Nat) (tbl : List acpu_level) (h : table_ready tbl) :
    (List.zipWith (report_of vdd_uv) (processed_rows m) (unused_slots tbl)).Pairwise
      (fun a b => a.index < b.index) := by
  have hidx := zipWith_report_index vdd_uv (processed_rows m) (unused_slots tbl) h
  have hp : ((unused_slots tbl).take (processed_rows m).length).Pairwise (fun a b => a < b) :=
    List.Pairwise.sublist (List.take_sublist _ _) (unused_from_pairwise _ _)
  rw [← hidx, List.pairwise_map] at hp
  exact hp

/-- The patch of the sample table at the default multiplier writes rows 2, 4, 5 and 6. -/
theorem sample_tbl_patch (vdd_uv : Nat) :
    patch_table (assign_overclock_slot freq_table 71) vdd_uv sample_tbl =
      some
        ([ ⟨1, ⟨384000, 1, 0, 0, 0⟩, 10, 950000⟩, ⟨1, ⟨486000, 2, 0, 0, 18⟩, 10, 950000⟩,
           ⟨0, ⟨1620000, 2, 0, 0, 60⟩, 11, 1200000⟩, ⟨1, ⟨594000, 2, 0, 0, 22⟩, 11, 975000⟩,
           ⟨0, ⟨1728000, 0, 0, 0, 64⟩, 0, 1200000⟩, ⟨0, ⟨1809000, 0, 0, 0, 67⟩, 0, 1250000⟩,
           ⟨0, ⟨1917000, 0, 0, 0, 71⟩, 0, 1300000⟩, ⟨0, ⟨0, 0, 0, 0, 0⟩, 0, 0⟩ ],
         [ ⟨2, 1620000, 60, 1200000⟩, ⟨4, 1728000, 64, 1200000⟩, ⟨5, 1809000, 67, 1250000⟩,
           ⟨6, 1917000, 71, 1300000⟩ ]) := by
  rfl

/-- C4: whenever the per-table patch of a resolved table is defined (which it is exactly on
the tables with four unused rows at position 1 or later), the processed ladder rows are
rows 12 to 15, and for each of them the slot chosen for it ends with `speed.khz` equal to
the ladder frequency `f`, `speed.pll_l_val` equal to `f / 27000` (truncating division) and
`vdd_core` equal to the voltage lookup of `f` with default `vdd_uv`. -/
theorem C4_patched_slot_values (m vdd_uv : Nat) (tbl tbl' : List acpu_level)
    (log : List row_report)
    (h : patch_table (assign_overclock_slot freq_table m) vdd_uv tbl = some (tbl', log)) :
    table_ready tbl ∧
    log.map (fun r => r.khz) =
      (((assign_overclock_slot freq_table m).drop 12).take 4).map (fun e => e.frequency) ∧
    log.map (fun r => r.khz) = [1620000, 1728000, 1809000, overclock_khz m] ∧
    ∀ r ∈ log, ∃ row, tbl'[r.index]? = some row ∧
      row.speed.khz = r.khz ∧
      row.speed.pll_l_val = r.khz / 27000 ∧
      row.vdd_core = find_vdd freq_vdd_table r.khz vdd_uv := by
  rw [patch_table_built] at h
  by_cases hr : table_ready tbl
  · rw [if_pos hr] at h
    simp only [Option.some.injEq, Prod.mk.injEq] at h
    obtain ⟨htbl, hlog⟩ := h
    subst hlog
    have hkhz := zipWith_report_khz vdd_uv (processed_rows m) (unused_slots tbl) hr
    refine ⟨hr, ?_, ?_, ?_⟩
    · rw [hkhz, assign_overclock_slot_eq]; rfl
    · rw [hkhz]; rfl
    · intro r hrmem
      have hidx : r.index ∈ unused_slots tbl := by
        have h1 : r.index ∈ (List.zipWith (report_of vdd_uv) (processed_rows m)
            (unused_slots tbl)).map (fun r => r.index) := List.mem_map_of_mem _ hrmem
        rw [zipWith_report_index vdd_uv (processed_rows m) (unused_slots tbl) hr] at h1
        exact List.mem_of_mem_take h1
      obtain ⟨_, row0, hrow0, _⟩ := (unused_slots_mem tbl r.index).1 hidx
      have hget := foldl_write_mem _ tbl (reports_pairwise m vdd_uv tbl hr) r hrmem
      rw [htbl, hrow0] at hget
      refine ⟨patched_row row0 r.khz r.vdd, hget, rfl, rfl, ?_⟩
      exact (zipWith_report_fields vdd_uv (processed_rows m) (unused_slots tbl) r hrmem).2
  · rw [if_neg hr] at h
    exact absurd h (by simp)

/-- C4, evaluated on the sample table at the default multiplier with default voltage
1275000. -/
theorem C4_patched_slot_values_witness :
    table_ready sample_tbl ∧
    ∀ r ∈ ([ ⟨2, 1620000, 60, 1200000⟩, ⟨4, 1728000, 64, 1200000⟩,
             ⟨5, 1809000, 67, 1250000⟩, ⟨6, 1917000, 71, 1300000⟩ ] : List row_report),
      ∃ row,
        ([ ⟨1, ⟨384000, 1, 0, 0, 0⟩, 10, 950000⟩, ⟨1, ⟨486000, 2, 0, 0, 18⟩, 10, 950000⟩,
           ⟨0, ⟨1620000, 2, 0, 0, 60⟩, 11, 1200000⟩, ⟨1, ⟨594000, 2, 0, 0, 22⟩, 11, 975000⟩,
           ⟨0, ⟨1728000, 0, 0, 0, 64⟩, 0, 1200000⟩, ⟨0, ⟨1809000, 0, 0, 0, 67⟩, 0, 1250000⟩,
           ⟨0, ⟨1917000, 0, 0, 0, 71⟩, 0, 1300000⟩, ⟨0, ⟨0, 0, 0, 0, 0⟩, 0, 0⟩ ] :
          List acpu_level)[r.index]? = some row ∧
        row.speed.khz = r.khz ∧
        row.speed.pll_l_val = r.khz / 27000 ∧
        row.vdd_core = find_vdd freq_vdd_table r.khz 1275000 :=
  have h := C4_patched_slot_values 71 1275000 sample_tbl _ _ (sample_tbl_patch 1275000)
  ⟨h.1, h.2.2.2⟩

/-- C5: on every table with at least four rows at position 1 or later whose
`use_for_scaling` is clear, the per-table patch is defined; the k-th processed ladder row
(ladder row 12 + k, k = 0..3) is written into the k-th such row in increasing position
order; every written row is at position 1 or later and has its flag clear, so no row in use
and not row 0 is written; the written positions are strictly increasing; and every row
that is not one of the four keeps its content. -/
theorem C5_slot_selection (m vdd_uv : Nat) (tbl : List acpu_level) (h : table_ready tbl) :
    ∃ tbl' log, patch_table (assign_overclock_slot freq_table m) vdd_uv tbl = some (tbl', log) ∧
      log.map (fun r => r.index) = (unused_slots tbl).take 4 ∧
      log.map (fun r => r.khz) =
        (((assign_overclock_slot freq_table m).drop 12).take 4).map (fun e => e.frequency) ∧
      log.length = 4 ∧
      (∀ r ∈ log, 1 ≤ r.index ∧ ∃ row, tbl[r.index]? = some row ∧ row.use_for_scaling = 0) ∧
      (∀ r ∈ log, ∃ row, tbl[r.index]? = some row ∧
        tbl'[r.index]? = some (patched_row row r.khz r.vdd)) ∧
      (log.map (fun r => r.index)).Pairwise (fun a b => a < b) ∧
      (∀ j, j ∉ log.map (fun r => r.index) → tbl'[j]? = tbl[j]?) ∧
      (∀ (j : Nat) (row : acpu_level), tbl[j]? = some row → row.use_for_scaling ≠ 0 →
        tbl'[j]? = some row) ∧
      tbl'[0]? = tbl[0]? ∧
      tbl'.length = tbl.length := by
  have hidx := zipWith_report_index vdd_uv (processed_rows m) (unused_slots tbl) h
  have hkhz := zipWith_report_khz vdd_uv (processed_rows m) (unused_slots tbl) h
  have hpw := reports_pairwise m vdd_uv tbl h
  have hlen4 : (processed_rows m).length = 4 := rfl
  rw [hlen4] at hidx
  have hmem : ∀ r ∈ List.zipWith (report_of vdd_uv) (processed_rows m) (unused_slots tbl),
      r.index ∈ unused_slots tbl := by
    intro r hr
    have h1 : r.index ∈ (List.zipWith (report_of vdd_uv) (processed_rows m)
        (unused_slots tbl)).map (fun r => r.index) := List.mem_map_of_mem _ hr
    rw [hidx] at h1
    exact List.mem_of_mem_take h1
  have hother : ∀ j, j ∉ (List.zipWith (report_of vdd_uv) (processed_rows m)
      (unused_slots tbl)).map (fun r => r.index) →
      ((List.zipWith (report_of vdd_uv) (processed_rows m) (unused_slots tbl)).foldl
        write_report tbl)[j]? = tbl[j]? := by
    intro j hj
    apply foldl_write_other
    intro r hr heq
    exact hj (heq ▸ List.mem_map_of_mem (fun r => r.index) hr)
  refine ⟨_, _, ?_, hidx, ?_, ?_, ?_, ?_, ?_, hother, ?_, ?_, foldl_write_length _ _⟩
  · rw [patch_table_built, if_pos h]
  · rw [hkhz, assign_overclock_slot_eq]; rfl
  · have := congrArg List.length hidx
    rw [List.length_map, List.length_take] at this
    rw [this]
    exact Nat.min_eq_left h
  · intro r hr
    exact (unused_slots_mem tbl r.index).1 (hmem r hr)
  · intro r hr
    obtain ⟨_, row0, hrow0, _⟩ := (unused_slots_mem tbl r.index).1 (hmem r hr)
    refine ⟨row0, hrow0, ?_⟩
    rw [foldl_write_mem _ tbl hpw r hr, hrow0]
    rfl
  · rw [hidx]
    exact List.Pairwise.sublist (List.take_sublist _ _) (unused_from_pairwise _ _)
  · intro j row hj hflag
    rw [← hj]
    apply hother
    intro hjm
    rw [hidx] at hjm
    obtain ⟨_, row1, hrow1, hz⟩ := (unused_slots_mem tbl j).1 (List.mem_of_mem_take hjm)
    rw [hj] at hrow1
    cases hrow1
    exact hflag hz
  · apply hother
    intro hjm
    rw [hidx] at hjm
    have := ((unused_slots_mem tbl 0).1 (List.mem_of_mem_take hjm)).1
    omega

/-- C5, evaluated on the sample table: the four ladder rows go to rows 2, 4, 5 and 6. -/
theorem C5_slot_selection_witness :
    table_ready sample_tbl ∧
    ∃ tbl' log, patch_table (assign_overclock_slot freq_table 71) 1300000 sample_tbl =
        some (tbl', log) ∧
      log.map (fun r => r.index) = [2, 4, 5, 6] ∧ tbl'[0]? = sample_tbl[0]? := by
  refine ⟨by decide, ?_⟩
  obtain ⟨tbl', log, h1, h2, _, _, _, _, _, _, _, h10, _⟩ :=
    C5_slot_selection 71 1300000 sample_tbl (by decide)
  exact ⟨tbl', log, h1, h2, h10⟩

/-! ### The driver on the whole state -/

/-- After the re-registration loop every visited CPU has the new table and every other CPU
keeps its registration. -/
theorem reattach_all_apply (table : table_ptr) (cpus : List Nat) :
    ∀ (show_table : Nat → table_ptr) (c : Nat),
      reattach_all table cpus show_table c = if c ∈ cpus then table else show_table c := by
  induction cpus with
  | nil => intro show_table c; simp [reattach_all]
  | cons cpu rest ih =>
    intro show_table c
    rw [reattach_all, ih]
    by_cases hc : c ∈ rest
    · simp [hc]
    · by_cases hcc : c = cpu
      · simp [hcc, cpufreq_frequency_table_get_attr]
      · simp [hc, hcc, cpufreq_frequency_table_get_attr, cpufreq_frequency_table_put_attr]

/-- What a returning call of `acpu_freq_row_update` leaves behind: only the table at the
given symbol can change, and it changes into the patched table when the symbol resolves. -/
theorem row_update_inv (k : String → Nat) (v : Nat) (n : String) (s s' : State)
    (h : acpu_freq_row_update k v n s = some s') :
    s'.cpuinfo_max_freq = s.cpuinfo_max_freq ∧ s'.show_table = s.show_table ∧
    s'.possible_cpus = s.possible_cpus ∧ s'.freq_table = s.freq_table ∧
    s'.orig_table = s.orig_table ∧ s'.cpufreq_cpu_get_new = s.cpufreq_cpu_get_new ∧
    (∀ x, x ≠ n → s'.acpu_tbl x = s.acpu_tbl x) ∧
    (k n = 0 → s' = s) ∧
    (k n ≠ 0 →
      (patch_table s.freq_table v (s.acpu_tbl n)).map Prod.fst = some (s'.acpu_tbl n)) := by
  unfold acpu_freq_row_update at h
  by_cases hk : k n = 0
  · rw [if_pos hk] at h
    cases h
    exact ⟨rfl, rfl, rfl, rfl, rfl, rfl, fun _ _ => rfl, fun _ => rfl, fun hne => absurd hk hne⟩
  · rw [if_neg hk] at h
    cases hp : patch_table s.freq_table v (s.acpu_tbl n) with
    | none => rw [hp] at h; cases h
    | some res =>
      obtain ⟨tbl, log⟩ := res
      rw [hp] at h
      cases h
      refine ⟨rfl, rfl, rfl, rfl, rfl, rfl, ?_, fun h0 => absurd h0 hk, ?_⟩
      · intro x hx; simp [hx]
      · intro _; simp

/-- A call of `acpu_freq_row_update` returns when the symbol does not resolve or the patch
of its table is defined. -/
theorem row_update_total (k : String → Nat) (v : Nat) (n : String) (s : State)
    (h : k n ≠ 0 → (patch_table s.freq_table v (s.acpu_tbl n)).isSome = true) :
    ∃ s', acpu_freq_row_update k v n s = some s' := by
  unfold acpu_freq_row_update
  by_cases hk : k n = 0
  · exact ⟨s, by rw [if_pos hk]⟩
  · rw [if_neg hk]
    cases hp : patch_table s.freq_table v (s.acpu_tbl n) with
    | none => have := h hk; rw [hp] at this; cases this
    | some res => obtain ⟨tbl, log⟩ := res; exact ⟨_, rfl⟩

/-- The three table names are pairwise distinct. -/
theorem acpu_table_names_distinct :
    ACPU_FREQ_TBL_NOM_NAME ≠ ACPU_FREQ_TBL_SLOW_NAME ∧
    ACPU_FREQ_TBL_NOM_NAME ≠ ACPU_FREQ_TBL_FAST_NAME ∧
    ACPU_FREQ_TBL_SLOW_NAME ≠ ACPU_FREQ_TBL_FAST_NAME := by
  decide

/-- When the policy-fetch symbol is missing, `overclock_init` returns 0 at once. -/
theorem overclock_init_unresolved (k : String → Nat) (m v : Nat) (s : State)
    (h : k "cpufreq_cpu_get" = 0) : overclock_init k m v s = some (s, 0) := by
  unfold overclock_init
  simp only [h, if_true]

/-- When the policy-fetch symbol resolves, `overclock_init` is the three table patches run
on the policy-patched state. -/
theorem overclock_init_resolved (k : String → Nat) (m v : Nat) (s : State)
    (h : k "cpufreq_cpu_get" ≠ 0) :
    overclock_init k m v s =
      match acpu_freq_row_update k v ACPU_FREQ_TBL_NOM_NAME (policy_patched k m s) with
      | none => none
      | some s6 =>
        match acpu_freq_row_update k v ACPU_FREQ_TBL_SLOW_NAME s6 with
        | none => none
        | some s7 =>
          match acpu_freq_row_update k v ACPU_FREQ_TBL_FAST_NAME s7 with
          | none => none
          | some s8 => some (s8, 0) := by
  unfold overclock_init
  simp only [h, if_false]
  rfl

/-- What a returning call of `overclock_init` leaves behind when the policy-fetch symbol
resolves. -/
theorem overclock_init_inv (k : String → Nat) (m v : Nat) (s s' : State) (r : Int)
    (hget : k "cpufreq_cpu_get" ≠ 0) (hrun : overclock_init k m v s = some (s', r)) :
    r = 0 ∧
    s'.cpuinfo_max_freq = overclock_khz m ∧
    s'.freq_table = assign_overclock_slot s.freq_table m ∧
    s'.orig_table = s.show_table 0 ∧
    s'.show_table = reattach_all table_ptr.ladder s.possible_cpus s.show_table ∧
    s'.possible_cpus = s.possible_cpus ∧
    s'.cpufreq_cpu_get_new = k "cpufreq_cpu_get" ∧
    (∀ x, x ∉ acpu_table_names → s'.acpu_tbl x = s.acpu_tbl x) ∧
    (∀ x ∈ acpu_table_names, k x = 0 → s'.acpu_tbl x = s.acpu_tbl x) ∧
    (∀ x ∈ acpu_table_names, k x ≠ 0 →
      (patch_table (assign_overclock_slot s.freq_table m) v (s.acpu_tbl x)).map Prod.fst =
        some (s'.acpu_tbl x)) := by
  rw [overclock_init_resolved k m v s hget] at hrun
  cases h6 : acpu_freq_row_update k v ACPU_FREQ_TBL_NOM_NAME (policy_patched k m s) with
  | none => simp only [h6] at hrun; cases hrun
  | some s6 =>
    simp only [h6] at hrun
    cases h7 : acpu_freq_row_update k v ACPU_FREQ_TBL_SLOW_NAME s6 with
    | none => simp only [h7] at hrun; cases hrun
    | some s7 =>
      simp only [h7] at hrun
      cases h8 : acpu_freq_row_update k v ACPU_FREQ_TBL_FAST_NAME s7 with
      | none => simp only [h8] at hrun; cases hrun
      | some s8 =>
        simp only [h8] at hrun
        cases hrun
        obtain ⟨a1, a2, a3, a4, a5, a6, a7, a8, a9⟩ := row_update_inv _ _ _ _ _ h6
        obtain ⟨b1, b2, b3, b4, b5, b6, b7, b8, b9⟩ := row_update_inv _ _ _ _ _ h7
        obtain ⟨c1, c2, c3, c4, c5, c6, c7, c8, c9⟩ := row_update_inv _ _ _ _ _ h8
        obtain ⟨d1, d2, d3⟩ := acpu_table_names_distinct
        have hnom : (policy_patched k m s).acpu_tbl = s.acpu_tbl := rfl
        have hlad : (policy_patched k m s).freq_table = assign_overclock_slot s.freq_table m :=
          rfl
        refine ⟨rfl, ?_, ?_, ?_, ?_, ?_, ?_, ?_, ?_, ?_⟩
        · rw [c1, b1, a1]; rfl
        · rw [c4, b4, a4]; rfl
        · rw [c5, b5, a5]; rfl
        · rw [c2, b2, a2]; rfl
        · rw [c3, b3, a3]; rfl
        · rw [c6, b6, a6]; rfl
        · intro x hx
          simp only [acpu_table_names, List.mem_cons, List.mem_singleton, List.not_mem_nil,
            or_false, not_or] at hx
          rw [c7 x hx.2.2, b7 x hx.2.1, a7 x hx.1, hnom]
        · intro x hx hk
          simp only [acpu_table_names, List.mem_cons, List.mem_singleton, List.not_mem_nil,
            or_false] at hx
          rcases hx with hx | hx | hx
          · subst hx
            rw [c7 _ d2, b7 _ d1, a8 hk, hnom]
          · subst hx
            rw [c7 _ d3, b8 hk, a7 _ (Ne.symm d1), hnom]
          · subst hx
            rw [c8 hk, b7 _ (Ne.symm d3), a7 _ (Ne.symm d2), hnom]
        · intro x hx hk
          simp only [acpu_table_names, List.mem_cons, List.mem_singleton, List.not_mem_nil,
            or_false] at hx
          rcases hx with hx | hx | hx
          · subst hx
            rw [c7 _ d2, b7 _ d1, ← a9 hk, hlad, hnom]
          · subst hx
            rw [c7 _ d3, ← b9 hk, a4, hlad, a7 _ (Ne.symm d1), hnom]
          · subst hx
            rw [← c9 hk, b4, a4, hlad, b7 _ (Ne.symm d3), a7 _ (Ne.symm d2), hnom]

/-- When the policy-fetch symbol resolves and the patch of every resolved table is defined,
`overclock_init` returns, and it returns 0. -/
theorem overclock_init_total (k : String → Nat) (m v : Nat) (s : State)
    (hget : k "cpufreq_cpu_get" ≠ 0) (hdef : patch_defined k m v s) :
    ∃ s', overclock_init k m v s = some (s', 0) := by
  obtain ⟨d1, d2, d3⟩ := acpu_table_names_distinct
  have hnom : (policy_patched k m s).acpu_tbl = s.acpu_tbl := rfl
  have hlad : (policy_patched k m s).freq_table = assign_overclock_slot s.freq_table m := rfl
  rw [overclock_init_resolved k m v s hget]
  obtain ⟨s6, h6⟩ := row_update_total k v ACPU_FREQ_TBL_NOM_NAME (policy_patched k m s)
    (fun hk => by rw [hlad, hnom]; exact hdef _ (by simp [acpu_table_names]) hk)
  obtain ⟨a1, a2, a3, a4, a5, a6, a7, a8, a9⟩ := row_update_inv _ _ _ _ _ h6
  obtain ⟨s7, h7⟩ := row_update_total k v ACPU_FREQ_TBL_SLOW_NAME s6
    (fun hk => by
      rw [a4, hlad, a7 _ (Ne.symm d1), hnom]; exact hdef _ (by simp [acpu_table_names]) hk)
  obtain ⟨b1, b2, b3, b4, b5, b6, b7, b8, b9⟩ := row_update_inv _ _ _ _ _ h7
  obtain ⟨s8, h8⟩ := row_update_total k v ACPU_FREQ_TBL_FAST_NAME s7
    (fun hk => by
      rw [b4, a4, hlad, b7 _ (Ne.symm d3), a7 _ (Ne.symm d2), hnom]
      exact hdef _ (by simp [acpu_table_names]) hk)
  exact ⟨s8, by simp only [h6, h7, h8]⟩

/-- On a freshly loaded module the patch of every resolved table is defined as soon as each
resolved table has four unused rows at position 1 or later. -/
theorem patch_defined_of_ready (k : String → Nat) (m v : Nat) (s : State)
    (hlad : s.freq_table = freq_table)
    (hready : ∀ name ∈ acpu_table_names, k name ≠ 0 → table_ready (s.acpu_tbl name)) :
    patch_defined k m v s := by
  intro name hname hk
  rw [hlad, patch_table_built, if_pos (hready name hname hk)]
  rfl

/-- When the policy-fetch symbol resolves at unload and the function pointer was set at
load, `overclock_exit` resets the policy maximum and re-registers the saved table. -/
theorem overclock_exit_resolved (k : String → Nat) (s : State)
    (hget : k "cpufreq_cpu_get" ≠ 0) (hptr : s.cpufreq_cpu_get_new ≠ 0) :
    overclock_exit k s =
      some { s with
        cpuinfo_max_freq := 1512000,
        show_table := reattach_all s.orig_table s.possible_cpus s.show_table } := by
  unfold overclock_exit
  simp only [hget, hptr, ne_eq, not_false_eq_true, if_true, if_false]

/-- When the policy-fetch symbol does not resolve at unload, `overclock_exit` does
nothing. -/
theorem overclock_exit_unresolved (k : String → Nat) (s : State)
    (hget : k "cpufreq_cpu_get" = 0) : overclock_exit k s = some s := by
  unfold overclock_exit
  simp only [hget, ne_eq, not_true_eq_false, if_false]

/-- The sample state, under each of the sample resolvers, meets the precondition of the
slot search. -/
theorem sample_state_ready :
    patch_defined sample_ksym 71 1300000 sample_state ∧
    patch_defined sample_ksym_no_slow 71 1300000 sample_state ∧
    patch_defined sample_ksym 71 1300000 sample_state_odd :=
  ⟨patch_defined_of_ready _ _ _ _ rfl (by decide),
   patch_defined_of_ready _ _ _ _ rfl (by decide),
   patch_defined_of_ready _ _ _ _ rfl (by decide)⟩

/-- C6: when the policy-fetch symbol resolves, exactly one of the three table names does
not, and the two tables that resolve meet the precondition of the slot search, then
`overclock_init` on a freshly loaded module returns 0, leaves the unresolved table
untouched, and leaves in each of the other two tables the result of the per-table patch,
which is also what any run in which all three names resolve leaves there. -/
theorem C6_one_table_unresolved (k : String → Nat) (m v : Nat) (s : State) (x : String)
    (hget : k "cpufreq_cpu_get" ≠ 0)
    (hx : x ∈ acpu_table_names) (hx0 : k x = 0)
    (hothers : ∀ y ∈ acpu_table_names, y ≠ x → k y ≠ 0)
    (hlad : s.freq_table = freq_table)
    (hready : ∀ y ∈ acpu_table_names, y ≠ x → table_ready (s.acpu_tbl y)) :
    ∃ s1, overclock_init k m v s = some (s1, 0) ∧
      s1.acpu_tbl x = s.acpu_tbl x ∧
      (∀ y ∈ acpu_table_names, y ≠ x →
        (patch_table (assign_overclock_slot freq_table m) v (s.acpu_tbl y)).map Prod.fst =
          some (s1.acpu_tbl y)) ∧
      (∀ (k2 : String → Nat) (s2 : State) (r2 : Int),
        k2 "cpufreq_cpu_get" ≠ 0 → (∀ y ∈ acpu_table_names, k2 y ≠ 0) →
        overclock_init k2 m v s = some (s2, r2) →
        r2 = 0 ∧ ∀ y ∈ acpu_table_names, y ≠ x → s1.acpu_tbl y = s2.acpu_tbl y) := by
  have hdef : patch_defined k m v s := by
    apply patch_defined_of_ready k m v s hlad
    intro y hy hky
    by_cases hyx : y = x
    · subst hyx; exact absurd hx0 hky
    · exact hready y hy hyx
  obtain ⟨s1, h1⟩ := overclock_init_total k m v s hget hdef
  obtain ⟨_, _, _, _, _, _, _, _, i9, i10⟩ := overclock_init_inv k m v s s1 0 hget h1
  refine ⟨s1, h1, i9 x hx hx0, ?_, ?_⟩
  · intro y hy hyx
    rw [← hlad]
    exact i10 y hy (hothers y hy hyx)
  · intro k2 s2 r2 hget2 hall hrun2
    obtain ⟨j1, _, _, _, _, _, _, _, _, j10⟩ := overclock_init_inv k2 m v s s2 r2 hget2 hrun2
    refine ⟨j1, ?_⟩
    intro y hy hyx
    have e1 := i10 y hy (hothers y hy hyx)
    have e2 := j10 y hy (hall y hy)
    rw [e1] at e2
    exact Option.some.inj e2

/-- C6, evaluated on the sample state with the slow table unresolved. -/
theorem C6_one_table_unresolved_witness :
    ∃ s1, overclock_init sample_ksym_no_slow 71 1300000 sample_state = some (s1, 0) ∧
      s1.acpu_tbl ACPU_FREQ_TBL_SLOW_NAME = sample_tbl ∧
      (patch_table (assign_overclock_slot freq_table 71) 1300000 sample_tbl).map Prod.fst =
        some (s1.acpu_tbl ACPU_FREQ_TBL_FAST_NAME) := by
  obtain ⟨s1, h1, h2, h3, _⟩ :=
    C6_one_table_unresolved sample_ksym_no_slow 71 1300000 sample_state
      ACPU_FREQ_TBL_SLOW_NAME (by decide) (by decide) (by decide) (by decide) rfl (by decide)
  exact ⟨s1, h1, h2, h3 ACPU_FREQ_TBL_FAST_NAME (by decide) (by decide)⟩

/-- C7: `overclock_init` returns 0 whenever it returns; when the policy-fetch symbol
`cpufreq_cpu_get` does not resolve it returns 0 with the state exactly as before (policy
maximum, ladder, saved table, per-CPU registrations, the three hardware tables); and when
the symbol resolves on a freshly loaded module whose resolved tables meet the precondition
of the slot search, it returns 0 as well. -/
theorem C7_init_returns_zero (k : String → Nat) (m v : Nat) (s : State) :
    (∀ (s1 : State) (r : Int), overclock_init k m v s = some (s1, r) → r = 0) ∧
    (k "cpufreq_cpu_get" = 0 → overclock_init k m v s = some (s, 0)) ∧
    (k "cpufreq_cpu_get" ≠ 0 → s.freq_table = freq_table →
      (∀ y ∈ acpu_table_names, k y ≠ 0 → table_ready (s.acpu_tbl y)) →
      ∃ s1, overclock_init k m v s = some (s1, 0)) := by
  refine ⟨?_, overclock_init_unresolved k m v s, ?_⟩
  · intro s1 r hrun
    by_cases hget : k "cpufreq_cpu_get" = 0
    · rw [overclock_init_unresolved k m v s hget] at hrun
      cases hrun
      rfl
    · exact (overclock_init_inv k m v s s1 r hget hrun).1
  · intro hget hlad hready
    exact overclock_init_total k m v s hget (patch_defined_of_ready k m v s hlad hready)

/-- C7, evaluated on the sample state: nothing resolves and the state is returned as it
was; everything resolves and the call returns 0. -/
theorem C7_init_returns_zero_witness :
    overclock_init sample_ksym_none 71 1300000 sample_state = some (sample_state, 0) ∧
    ∃ s1, overclock_init sample_ksym 71 1300000 sample_state = some (s1, 0) :=
  ⟨(C7_init_returns_zero sample_ksym_none 71 1300000 sample_state).2.1 (by decide),
   (C7_init_returns_zero sample_ksym 71 1300000 sample_state).2.2 (by decide) rfl
     (by decide)⟩

/-- C8: after a run of `overclock_init` in which the policy-fetch symbol resolves, for every
multiplier `m`: the saved table is the one that was registered for CPU 0 before the call;
the policy maximum is `m * 27000` in 32-bit unsigned arithmetic, the very value in the
overclock slot of the ladder; and every possible CPU is registered with the driver's
ladder, which is the ladder with the overclock slot assigned. -/
theorem C8_policy_after_init (k : String → Nat) (m v : Nat) (s s1 : State) (r : Int)
    (hget : k "cpufreq_cpu_get" ≠ 0)
    (hlen : s.freq_table.length = FREQ_TABLE_SIZE)
    (hrun : overclock_init k m v s = some (s1, r)) :
    s1.orig_table = cpufreq_frequency_get_table s.show_table 0 ∧
    s1.cpuinfo_max_freq = (m * 27000) % 4294967296 ∧
    (s1.freq_table[FREQ_TABLE_LAST]?).map (fun row => row.frequency) =
      some s1.cpuinfo_max_freq ∧
    (∀ cpu ∈ s.possible_cpus, s1.show_table cpu = table_ptr.ladder) ∧
    s1.possible_cpus = s.possible_cpus ∧
    s1.freq_table = assign_overclock_slot s.freq_table m := by
  obtain ⟨_, i2, i3, i4, i5, i6, _, _, _, _⟩ := overclock_init_inv k m v s s1 r hget hrun
  refine ⟨i4, i2, ?_, ?_, i6, i3⟩
  · rw [i3, i2]
    unfold assign_overclock_slot set_frequency
    rw [List.getElem?_modify_eq]
    have hlt : FREQ_TABLE_LAST < s.freq_table.length := by
      rw [hlen]; decide
    rw [List.getElem?_eq_getElem hlt]
    rfl
  · intro cpu hcpu
    rw [i5, reattach_all_apply, if_pos hcpu]

/-- C8, evaluated on the sample state at the default multiplier. -/
theorem C8_policy_after_init_witness :
    ∃ s1, overclock_init sample_ksym 71 1300000 sample_state = some (s1, 0) ∧
      s1.orig_table = table_ptr.other 3230000000 ∧
      s1.cpuinfo_max_freq = 1917000 ∧
      s1.show_table 1 = table_ptr.ladder := by
  obtain ⟨s1, h1⟩ := overclock_init_total sample_ksym 71 1300000 sample_state (by decide)
    sample_state_ready.1
  obtain ⟨c1, c2, _, c4, _, _⟩ :=
    C8_policy_after_init sample_ksym 71 1300000 sample_state s1 0 (by decide) rfl h1
  exact ⟨s1, h1, c1, c2, c4 1 (by decide)⟩

/-- C9, as stated, fails on a pre-patch state whose policy maximum is 1728000 and whose
second core has its own table: load followed by unload leaves the maximum at 1512000 and
core 1 registered with the table of core 0. -/
theorem C9_round_trip_fails :
    ∃ s1 s2, overclock_init sample_ksym 71 1300000 sample_state_odd = some (s1, 0) ∧
      overclock_exit sample_ksym s1 = some s2 ∧
      sample_state_odd.cpuinfo_max_freq = 1728000 ∧ s2.cpuinfo_max_freq = 1512000 ∧
      sample_state_odd.show_table 1 = table_ptr.other 3230004096 ∧
      s2.show_table 1 = table_ptr.other 3230000000 := by
  obtain ⟨s1, h1⟩ := overclock_init_total sample_ksym 71 1300000 sample_state_odd (by decide)
    sample_state_ready.2.2
  obtain ⟨_, _, _, i4, i5, i6, i7, _, _, _⟩ :=
    overclock_init_inv sample_ksym 71 1300000 sample_state_odd s1 0 (by decide) h1
  have hptr : s1.cpufreq_cpu_get_new ≠ 0 := by rw [i7]; decide
  refine ⟨s1, _, h1, overclock_exit_resolved sample_ksym s1 (by decide) hptr, rfl, rfl, rfl, ?_⟩
  show reattach_all s1.orig_table s1.possible_cpus s1.show_table 1 = _
  rw [reattach_all_apply, i6, i4]
  rfl

/-- C9, amended: after a run of `overclock_init` and then `overclock_exit`, the
policy-fetch symbol resolving both times, the policy maximum is the stock 1512000 and every
possible CPU is registered with the table that CPU 0 had before load, every other CPU
keeping its registration; so the pair is a round trip on the policy maximum when that was
1512000 before load, and on the registrations when every possible CPU had the table of CPU
0 before load. -/
theorem C9_init_exit_restores_stock (k k2 : String → Nat) (m v : Nat) (s s1 : State) (r : Int)
    (hget : k "cpufreq_cpu_get" ≠ 0) (hget2 : k2 "cpufreq_cpu_get" ≠ 0)
    (hrun : overclock_init k m v s = some (s1, r)) :
    ∃ s2, overclock_exit k2 s1 = some s2 ∧
      s2.cpuinfo_max_freq = 1512000 ∧
      (∀ cpu, s2.show_table cpu =
        if cpu ∈ s.possible_cpus then s.show_table 0 else s.show_table cpu) ∧
      (s.cpuinfo_max_freq = 1512000 → s2.cpuinfo_max_freq = s.cpuinfo_max_freq) ∧
      ((∀ cpu ∈ s.possible_cpus, s.show_table cpu = s.show_table 0) →
        ∀ cpu, s2.show_table cpu = s.show_table cpu) := by
  obtain ⟨_, _, _, i4, i5, i6, i7, _, _, _⟩ := overclock_init_inv k m v s s1 r hget hrun
  have hptr : s1.cpufreq_cpu_get_new ≠ 0 := by rw [i7]; exact hget
  have hshow : ∀ cpu, reattach_all s1.orig_table s1.possible_cpus s1.show_table cpu =
      if cpu ∈ s.possible_cpus then s.show_table 0 else s.show_table cpu := by
    intro cpu
    rw [reattach_all_apply, i6, i4, i5, reattach_all_apply]
    by_cases hc : cpu ∈ s.possible_cpus
    · rw [if_pos hc, if_pos hc]
    · rw [if_neg hc, if_neg hc, if_neg hc]
  refine ⟨_, overclock_exit_resolved k2 s1 hget2 hptr, rfl, hshow, fun h => h.symm, ?_⟩
  intro hall cpu
  show reattach_all s1.orig_table s1.possible_cpus s1.show_table cpu = _
  rw [hshow]
  by_cases hc : cpu ∈ s.possible_cpus
  · rw [if_pos hc, hall cpu hc]
  · rw [if_neg hc]

/-- C9 (amended), evaluated on the sample state, where load followed by unload is a round
trip on the policy maximum and on the registration of core 1. -/
theorem C9_init_exit_restores_stock_witness :
    ∃ s1 s2, overclock_init sample_ksym 71 1300000 sample_state = some (s1, 0) ∧
      overclock_exit sample_ksym s1 = some s2 ∧
      s2.cpuinfo_max_freq = sample_state.cpuinfo_max_freq ∧
      s2.show_table 1 = sample_state.show_table 1 := by
  obtain ⟨s1, h1⟩ := overclock_init_total sample_ksym 71 1300000 sample_state (by decide)
    sample_state_ready.1
  obtain ⟨s2, h2, _, _, h5, h6⟩ :=
    C9_init_exit_restores_stock sample_ksym sample_ksym 71 1300000 sample_state s1 0
      (by decide) (by decide) h1
  exact ⟨s1, s2, h1, h2, h5 rfl, h6 (by decide) 1⟩

/-- C10: after a run of `overclock_init` in which the policy-fetch symbol resolved,
`overclock_exit` with the symbol resolving sets the policy maximum to 1512000 and registers
the saved table for every possible CPU, while the hardware tables, the ladder and the
driver's other globals stay exactly as `overclock_init` left them; and on any state at all,
`overclock_exit` with the symbol not resolving changes nothing. -/
theorem C10_exit_frame (k k2 : String → Nat) (m v : Nat) (s s1 : State) (r : Int)
    (hget : k "cpufreq_cpu_get" ≠ 0)
    (hrun : overclock_init k m v s = some (s1, r)) :
    (k2 "cpufreq_cpu_get" ≠ 0 →
      ∃ s2, overclock_exit k2 s1 = some s2 ∧
        s2.cpuinfo_max_freq = 1512000 ∧
        (∀ cpu ∈ s1.possible_cpus, s2.show_table cpu = s1.orig_table) ∧
        (∀ cpu, cpu ∉ s1.possible_cpus → s2.show_table cpu = s1.show_table cpu) ∧
        s2.acpu_tbl = s1.acpu_tbl ∧
        s2.freq_table = s1.freq_table ∧
        s2.orig_table = s1.orig_table ∧
        s2.possible_cpus = s1.possible_cpus ∧
        s2.cpufreq_cpu_get_new = s1.cpufreq_cpu_get_new) ∧
    (∀ s0 : State, k2 "cpufreq_cpu_get" = 0 → overclock_exit k2 s0 = some s0) := by
  obtain ⟨_, _, _, _, _, _, i7, _, _, _⟩ := overclock_init_inv k m v s s1 r hget hrun
  have hptr : s1.cpufreq_cpu_get_new ≠ 0 := by rw [i7]; exact hget
  refine ⟨?_, fun s0 h0 => overclock_exit_unresolved k2 s0 h0⟩
  intro hget2
  refine ⟨_, overclock_exit_resolved k2 s1 hget2 hptr, rfl, ?_, ?_, rfl, rfl, rfl, rfl, rfl⟩
  · intro cpu hcpu
    show reattach_all s1.orig_table s1.possible_cpus s1.show_table cpu = _
    rw [reattach_all_apply, if_pos hcpu]
  · intro cpu hcpu
    show reattach_all s1.orig_table s1.possible_cpus s1.show_table cpu = _
    rw [reattach_all_apply, if_neg hcpu]

/-- C10, evaluated on the sample state: unload after load leaves the nominal table as load
patched it, and unload without the symbol returns the state it was given. -/
theorem C10_exit_frame_witness :
    ∃ s1 s2, overclock_init sample_ksym 71 1300000 sample_state = some (s1, 0) ∧
      overclock_exit sample_ksym s1 = some s2 ∧
      s2.cpuinfo_max_freq = 1512000 ∧
      s2.acpu_tbl ACPU_FREQ_TBL_NOM_NAME = s1.acpu_tbl ACPU_FREQ_TBL_NOM_NAME ∧
      overclock_exit sample_ksym_none s1 = some s1 := by
  obtain ⟨s1, h1⟩ := overclock_init_total sample_ksym 71 1300000 sample_state (by decide)
    sample_state_ready.1
  have h := C10_exit_frame sample_ksym sample_ksym 71 1300000 sample_state s1 0 (by decide) h1
  obtain ⟨s2, h2, h3, _, _, h6, _⟩ := h.1 (by decide)
  exact ⟨s1, s2, h1, h2, h3, congrFun h6 _,
    (C10_exit_frame sample_ksym sample_ksym_none 71 1300000 sample_state s1 0 (by decide) h1).2
      s1 (by decide)⟩

/-! ### Shared facts about a defined per-table patch -/

/-- What a defined per-table patch on the built ladder leaves behind: the table had four
unused rows, the printed lines pair the processed ladder rows with the first four unused
rows, each such row ends patched with the values of its line, and every other row is as it
was. -/
theorem patch_table_inv (m v : Nat) (tbl tbl' : List acpu_level) (log : List row_report)
    (h : patch_table (assign_overclock_slot freq_table m) v tbl = some (tbl', log)) :
    table_ready tbl ∧
    log = List.zipWith (report_of v) (processed_rows m) (unused_slots tbl) ∧
    tbl' = log.foldl write_report tbl ∧
    log.Pairwise (fun a b => a.index < b.index) ∧
    log.map (fun r => r.index) = (unused_slots tbl).take 4 ∧
    (∀ r ∈ log, 1 ≤ r.index ∧ r.pll = r.khz / HFPLL_FREQ_KHZ ∧
      r.vdd = find_vdd freq_vdd_table r.khz v ∧
      ∃ row0, tbl[r.index]? = some row0 ∧ row0.use_for_scaling = 0 ∧
        tbl'[r.index]? = some (patched_row row0 r.khz r.vdd)) ∧
    (∀ j, j ∉ log.map (fun r => r.index) → tbl'[j]? = tbl[j]?) ∧
    tbl'.length = tbl.length := by
  rw [patch_table_built] at h
  by_cases hr : table_ready tbl
  · rw [if_pos hr] at h
    simp only [Option.some.injEq, Prod.mk.injEq] at h
    obtain ⟨htbl, hlog⟩ := h
    subst hlog
    subst htbl
    have hidx := zipWith_report_index v (processed_rows m) (unused_slots tbl) hr
    have hlen4 : (processed_rows m).length = 4 := rfl
    rw [hlen4] at hidx
    have hpw := reports_pairwise m v tbl hr
    refine ⟨hr, rfl, rfl, hpw, hidx, ?_, ?_, foldl_write_length _ _⟩
    · intro r hrmem
      have hmem : r.index ∈ unused_slots tbl := by
        have h1 : r.index ∈ (List.zipWith (report_of v) (processed_rows m)
            (unused_slots tbl)).map (fun r => r.index) := List.mem_map_of_mem _ hrmem
        rw [hidx] at h1
        exact List.mem_of_mem_take h1
      obtain ⟨hpos, row0, hrow0, hz⟩ := (unused_slots_mem tbl r.index).1 hmem
      obtain ⟨hpll, hvdd⟩ :=
        zipWith_report_fields v (processed_rows m) (unused_slots tbl) r hrmem
      refine ⟨hpos, hpll, hvdd, row0, hrow0, hz, ?_⟩
      rw [foldl_write_mem _ tbl hpw r hrmem, hrow0]
      rfl
    · intro j hj
      apply foldl_write_other
      intro r hrmem heq
      exact hj (heq ▸ List.mem_map_of_mem (fun r => r.index) hrmem)
  · rw [if_neg hr] at h
    exact absurd h (by simp)

/-- On a table with four unused rows the per-table patch is four stores, spelled out. -/
theorem patch_table_explicit (m v : Nat) (tbl : List acpu_level) (h : table_ready tbl) :
    ∃ a b c d more, unused_slots tbl = a :: b :: c :: d :: more ∧
      patch_table (assign_overclock_slot freq_table m) v tbl =
        some
          (write_row
            (write_row
              (write_row (write_row tbl a 1620000 1200000) b 1728000 1200000)
              c 1809000 1250000)
            d (overclock_khz m) (find_vdd freq_vdd_table (overclock_khz m) v),
           [ ⟨a, 1620000, 60, 1200000⟩, ⟨b, 1728000, 64, 1200000⟩,
             ⟨c, 1809000, 67, 1250000⟩,
             ⟨d, overclock_khz m, overclock_khz m / HFPLL_FREQ_KHZ,
               find_vdd freq_vdd_table (overclock_khz m) v⟩ ]) := by
  have h4 : 4 ≤ (unused_slots tbl).length := h
  match hs : unused_slots tbl with
  | [] => rw [hs] at h4; simp at h4
  | [_] => rw [hs] at h4; simp at h4
  | [_, _] => rw [hs] at h4; simp at h4
  | [_, _, _] => rw [hs] at h4; simp at h4
  | a :: b :: c :: d :: more =>
    refine ⟨a, b, c, d, more, rfl, ?_⟩
    rw [patch_table_built, if_pos h, hs]
    rfl

/-- A store into a row does not touch any `use_for_scaling` flag. -/
theorem write_row_flags (tbl : List acpu_level) (i khz vdd : Nat) :
    (write_row tbl i khz vdd).map (fun r => r.use_for_scaling) =
      tbl.map (fun r => r.use_for_scaling) := by
  apply List.ext_getElem?
  intro n
  simp only [List.getElem?_map, write_row, List.getElem?_modify]
  cases tbl[n]? with
  | none => rfl
  | some row =>
    by_cases hn : i = n
    · simp [hn, patched_row]
    · simp [hn]

/-- A sequence of stores does not touch any `use_for_scaling` flag. -/
theorem foldl_write_flags (rs : List row_report) :
    ∀ tbl : List acpu_level,
      (rs.foldl write_report tbl).map (fun r => r.use_for_scaling) =
        tbl.map (fun r => r.use_for_scaling) := by
  induction rs with
  | nil => intro tbl; rfl
  | cons r rs ih =>
    intro tbl
    rw [List.foldl_cons, ih]
    exact write_row_flags tbl r.index r.khz r.vdd

/-- The list of unused rows depends on the flags only. -/
theorem unused_from_congr (rows1 : List acpu_level) :
    ∀ (rows2 : List acpu_level) (i : Nat),
      rows1.map (fun r => r.use_for_scaling) = rows2.map (fun r => r.use_for_scaling) →
      unused_from rows1 i = unused_from rows2 i := by
  induction rows1 with
  | nil =>
    intro rows2 i h
    cases rows2 with
    | nil => rfl
    | cons r rs => simp at h
  | cons r1 rs1 ih =>
    intro rows2 i h
    cases rows2 with
    | nil => simp at h
    | cons r2 rs2 =>
      simp only [List.map_cons, List.cons.injEq] at h
      simp only [unused_from, h.1, ih rs2 (i + 1) h.2]

/-- A sequence of stores leaves the list of unused slots as it was. -/
theorem unused_slots_foldl_write (rs : List row_report) (tbl : List acpu_level) :
    unused_slots (rs.foldl write_report tbl) = unused_slots tbl := by
  unfold unused_slots
  apply unused_from_congr
  rw [List.map_drop, List.map_drop, foldl_write_flags]

/-- Patching a row twice with the same values is patching it once. -/
theorem patched_row_idem (row : acpu_level) (khz vdd : Nat) :
    patched_row (patched_row row khz vdd) khz vdd = patched_row row khz vdd := rfl

/-- Repeating a sequence of stores to pairwise distinct rows changes nothing more. -/
theorem foldl_write_twice (rs : List row_report) (tbl : List acpu_level)
    (hp : rs.Pairwise (fun a b => a.index < b.index)) :
    rs.foldl write_report (rs.foldl write_report tbl) = rs.foldl write_report tbl := by
  apply List.ext_getElem?
  intro n
  by_cases hn : ∃ r ∈ rs, r.index = n
  · obtain ⟨r, hr, rfl⟩ := hn
    rw [foldl_write_mem rs _ hp r hr, foldl_write_mem rs tbl hp r hr]
    cases tbl[r.index]? with
    | none => rfl
    | some row => rfl
  · apply foldl_write_other
    intro r hr heq
    exact hn ⟨r, hr, heq⟩

/-! ### Running the per-table patch twice -/

/-- C11, as stated, fails on the sample table: the second run of the per-table patch is
not rejected, and the rows it writes are rows 2, 4, 5 and 6, the very rows the first run
wrote, not a different set. -/
theorem C11_second_run_reuses_slots :
    ∃ t1 l1 t2 l2,
      patch_table (assign_overclock_slot freq_table 71) 1300000 sample_tbl = some (t1, l1) ∧
      patch_table (assign_overclock_slot freq_table 71) 1300000 t1 = some (t2, l2) ∧
      l1.map (fun r => r.index) = [2, 4, 5, 6] ∧
      l2.map (fun r => r.index) = [2, 4, 5, 6] :=
  ⟨_, _, _, _, sample_tbl_patch 1300000, rfl, rfl, rfl⟩

/-- C11, amended: a second run of the per-table patch on the table the first run left, with
the same ladder and default voltage, is defined, prints the same lines as the first run (so
it writes the same rows with the same values), and leaves the table exactly as the first
run left it; the rows of the first run therefore still hold what the first run wrote. -/
theorem C11_second_run_idempotent (m v : Nat) (tbl tbl1 : List acpu_level)
    (log1 : List row_report)
    (h : patch_table (assign_overclock_slot freq_table m) v tbl = some (tbl1, log1)) :
    patch_table (assign_overclock_slot freq_table m) v tbl1 = some (tbl1, log1) ∧
    ∀ r ∈ log1, ∃ row, tbl1[r.index]? = some row ∧
      row.speed.khz = r.khz ∧ row.speed.pll_l_val = r.pll ∧ row.vdd_core = r.vdd := by
  obtain ⟨hr, hlog, htbl, hpw, _, hrows, _, _⟩ := patch_table_inv m v tbl tbl1 log1 h
  have hslots : unused_slots tbl1 = unused_slots tbl := by
    rw [htbl]; exact unused_slots_foldl_write log1 tbl
  have hr1 : table_ready tbl1 := by
    unfold table_ready; rw [hslots]; exact hr
  refine ⟨?_, ?_⟩
  · rw [patch_table_built, if_pos hr1, hslots, ← hlog]
    have : log1.foldl write_report tbl1 = tbl1 := by
      rw [htbl]; exact foldl_write_twice log1 tbl hpw
    rw [this]
  · intro r hrmem
    obtain ⟨_, hpll, _, row0, _, _, hget⟩ := hrows r hrmem
    exact ⟨_, hget, rfl, hpll.symm, rfl⟩

/-- C11 (amended), evaluated on the sample table. -/
theorem C11_second_run_idempotent_witness :
    ∃ t1 l1,
      patch_table (assign_overclock_slot freq_table 71) 1300000 sample_tbl = some (t1, l1) ∧
      patch_table (assign_overclock_slot freq_table 71) 1300000 t1 = some (t1, l1) :=
  ⟨_, _, sample_tbl_patch 1300000,
    (C11_second_run_idempotent 71 1300000 sample_tbl _ _ (sample_tbl_patch 1300000)).1⟩

/-! ### The default configuration and the voltage written -/

/-- C12: with the default multiplier 0x47 = 71 the target frequency is 1917000 KHz, in the
overclock slot of the ladder and in the policy alike; the voltage lookup of 1917000 is
1300000 for every default voltage `d`, by exact match; the line printed for the overclock
row carries PLL value 71, which is what the row receives; and the lookup of 2000000, which
is no breakpoint, is the default `d`. -/
theorem C12_default_configuration (d : Nat) :
    (0x47 : Nat) = 71 ∧
    overclock_khz 0x47 = 1917000 ∧
    (assign_overclock_slot freq_table 0x47)[FREQ_TABLE_LAST]? = some ⟨15, 1917000⟩ ∧
    (∀ (k : String → Nat) (s : State), (policy_patched k 0x47 s).cpuinfo_max_freq = 1917000) ∧
    find_vdd freq_vdd_table 1917000 d = 1300000 ∧
    (∀ slot : Nat, report_of d ⟨15, overclock_khz 0x47⟩ slot = ⟨slot, 1917000, 71, 1300000⟩) ∧
    (∀ row : acpu_level, (patched_row row 1917000 1300000).speed.pll_l_val = 71 ∧
      (patched_row row 1917000 1300000).speed.khz = 1917000 ∧
      (patched_row row 1917000 1300000).vdd_core = 1300000) ∧
    (∀ (tbl tbl' : List acpu_level) (log : List row_report),
      patch_table (assign_overclock_slot freq_table 0x47) d tbl = some (tbl', log) →
      ∃ slot row, log[3]? = some ⟨slot, 1917000, 71, 1300000⟩ ∧ tbl'[slot]? = some row ∧
        row.speed.khz = 1917000 ∧ row.speed.pll_l_val = 71 ∧ row.vdd_core = 1300000) ∧
    find_vdd freq_vdd_table 2000000 d = d := by
  refine ⟨rfl, rfl, rfl, fun _ _ => rfl, rfl, fun _ => rfl, fun _ => ⟨rfl, rfl, rfl⟩, ?_, rfl⟩
  intro tbl tbl' log h
  obtain ⟨hr, _, _, _, _, hrows, _, _⟩ := patch_table_inv 71 d tbl tbl' log h
  obtain ⟨a, b, c, e, more, _, hex⟩ := patch_table_explicit 71 d tbl hr
  rw [h] at hex
  simp only [Option.some.injEq, Prod.mk.injEq] at hex
  obtain ⟨_, hlog⟩ := hex
  have hmem : (⟨e, 1917000, 71, 1300000⟩ : row_report) ∈ log := by
    rw [hlog]
    simp only [List.mem_cons]
    exact Or.inr (Or.inr (Or.inr (Or.inl rfl)))
  obtain ⟨_, _, _, row0, _, _, hget⟩ := hrows _ hmem
  exact ⟨e, patched_row row0 1917000 1300000, by rw [hlog]; rfl, hget, rfl, rfl, rfl⟩

/-- C12, evaluated on the sample table with default voltage 1250000: the overclock row goes
to row 6 with 1917000 KHz, PLL value 71 and 1300000 uV. -/
theorem C12_default_configuration_witness :
    ∃ slot row, ([ ⟨2, 1620000, 60, 1200000⟩, ⟨4, 1728000, 64, 1200000⟩,
        ⟨5, 1809000, 67, 1250000⟩, ⟨6, 1917000, 71, 1300000⟩ ] : List row_report)[3]? =
        some ⟨slot, 1917000, 71, 1300000⟩ ∧
      ([ ⟨1, ⟨384000, 1, 0, 0, 0⟩, 10, 950000⟩, ⟨1, ⟨486000, 2, 0, 0, 18⟩, 10, 950000⟩,
         ⟨0, ⟨1620000, 2, 0, 0, 60⟩, 11, 1200000⟩, ⟨1, ⟨594000, 2, 0, 0, 22⟩, 11, 975000⟩,
         ⟨0, ⟨1728000, 0, 0, 0, 64⟩, 0, 1200000⟩, ⟨0, ⟨1809000, 0, 0, 0, 67⟩, 0, 1250000⟩,
         ⟨0, ⟨1917000, 0, 0, 0, 71⟩, 0, 1300000⟩, ⟨0, ⟨0, 0, 0, 0, 0⟩, 0, 0⟩ ] :
        List acpu_level)[slot]? = some row ∧
      row.speed.khz = 1917000 ∧ row.speed.pll_l_val = 71 ∧ row.vdd_core = 1300000 :=
  (C12_default_configuration 1250000).2.2.2.2.2.2.2.1 sample_tbl _ _ (sample_tbl_patch 1250000)

/-- The voltage lookup never exceeds the larger of 1300000 and the default. -/
theorem find_vdd_le (f d : Nat) : find_vdd freq_vdd_table f d ≤ max 1300000 d := by
  by_cases h1 : f = 1620000
  · subst h1
    exact Nat.le_trans (show (1200000 : Nat) ≤ 1300000 by decide) (Nat.le_max_left 1300000 d)
  by_cases h2 : f = 1728000
  · subst h2
    exact Nat.le_trans (show (1200000 : Nat) ≤ 1300000 by decide) (Nat.le_max_left 1300000 d)
  by_cases h3 : f = 1809000
  · subst h3
    exact Nat.le_trans (show (1250000 : Nat) ≤ 1300000 by decide) (Nat.le_max_left 1300000 d)
  by_cases h4 : f = 1917000
  · subst h4; exact Nat.le_max_left _ _
  rw [find_vdd_default f d ⟨h1, h2, h3, h4⟩]
  exact Nat.le_max_right _ _

/-- C13, as stated, fails for multiplier 72 and configured voltage 1400000 on the sample
table: 72 * 27000 = 1944000 is no breakpoint, so row 6 receives the configured 1400000 uV,
above 1300000. -/
theorem C13_voltage_above_ceiling :
    ∃ tbl' log row,
      patch_table (assign_overclock_slot freq_table 72) 1400000 sample_tbl = some (tbl', log) ∧
      log[3]? = some ⟨6, 1944000, 72, 1400000⟩ ∧
      tbl'[6]? = some row ∧ row.vdd_core = 1400000 ∧ ¬ row.vdd_core ≤ 1300000 :=
  ⟨_, _, _, rfl, rfl, rfl, rfl, by decide⟩

/-- C13, amended: every `vdd_core` the per-table patch writes is the voltage lookup of the
row's frequency and is at most the larger of 1300000 and the configured `vdd_uv`; so it is
at most 1300000 whenever `vdd_uv` is, and the source puts no bound on `vdd_uv` itself. -/
theorem C13_voltage_bound (m v : Nat) (tbl tbl' : List acpu_level) (log : List row_report)
    (h : patch_table (assign_overclock_slot freq_table m) v tbl = some (tbl', log)) :
    ∀ r ∈ log, ∃ row, tbl'[r.index]? = some row ∧
      row.vdd_core = find_vdd freq_vdd_table r.khz v ∧
      row.vdd_core ≤ max 1300000 v ∧
      (v ≤ 1300000 → row.vdd_core ≤ 1300000) := by
  obtain ⟨_, _, _, _, _, hrows, _, _⟩ := patch_table_inv m v tbl tbl' log h
  intro r hrmem
  obtain ⟨_, _, hvdd, row0, _, _, hget⟩ := hrows r hrmem
  have hle : r.vdd ≤ max 1300000 v := by rw [hvdd]; exact find_vdd_le r.khz v
  refine ⟨_, hget, hvdd, hle, ?_⟩
  intro hv
  have : max 1300000 v = 1300000 := Nat.max_eq_left hv
  rw [this] at hle
  exact hle

/-- C13 (amended), evaluated on the sample table with multiplier 72 and configured voltage
1250000: the overclock row, written at row 6, receives at most 1300000. -/
theorem C13_voltage_bound_witness :
    ∃ row,
      ([ ⟨1, ⟨384000, 1, 0, 0, 0⟩, 10, 950000⟩, ⟨1, ⟨486000, 2, 0, 0, 18⟩, 10, 950000⟩,
         ⟨0, ⟨1620000, 2, 0, 0, 60⟩, 11, 1200000⟩, ⟨1, ⟨594000, 2, 0, 0, 22⟩, 11, 975000⟩,
         ⟨0, ⟨1728000, 0, 0, 0, 64⟩, 0, 1200000⟩, ⟨0, ⟨1809000, 0, 0, 0, 67⟩, 0, 1250000⟩,
         ⟨0, ⟨1944000, 0, 0, 0, 72⟩, 0, 1250000⟩, ⟨0, ⟨0, 0, 0, 0, 0⟩, 0, 0⟩ ] :
        List acpu_level)[6]? = some row ∧ row.vdd_core ≤ 1300000 := by
  obtain ⟨row, h1, _, _, h4⟩ :=
    C13_voltage_bound 72 1250000 sample_tbl _ _ (show _ = some (_, _) from rfl)
      ⟨6, 1944000, 72, 1250000⟩ (by decide)
  exact ⟨row, h1, h4 (by decide)⟩

/-! ### Monotonicity of the ladder -/

/-- C14: for every multiplier `m` the frequencies of ladder rows 0 to 14 are strictly
increasing, and the frequencies of rows 0 to 15 (all rows but the terminator) are strictly
increasing exactly when the overclock frequency `m * 27000 mod 2^32` exceeds 1809000, the
frequency of row 14; they are for `m = 71` and are not for any `m ≤ 67`. -/
theorem C14_ladder_monotone (m : Nat) :
    (((assign_overclock_slot freq_table m).take 15).map (fun e => e.frequency)).Pairwise
      (fun a b => a < b) ∧
    ((((assign_overclock_slot freq_table m).take 16).map (fun e => e.frequency)).Pairwise
      (fun a b => a < b) ↔ 1809000 < overclock_khz m) ∧
    (assign_overclock_slot freq_table m)[14]? = some ⟨14, 1809000⟩ ∧
    (((assign_overclock_slot freq_table 71).take 16).map (fun e => e.frequency)).Pairwise
      (fun a b => a < b) ∧
    (m ≤ 67 →
      ¬ (((assign_overclock_slot freq_table m).take 16).map (fun e => e.frequency)).Pairwise
        (fun a b => a < b)) := by
  have hiff : ((((assign_overclock_slot freq_table m).take 16).map
      (fun e => e.frequency)).Pairwise (fun a b => a < b) ↔ 1809000 < overclock_khz m) := by
    rw [assign_overclock_slot_eq]
    generalize overclock_khz m = x
    simp only [List.take, List.map, List.pairwise_cons, List.mem_cons, List.mem_singleton,
      List.not_mem_nil, forall_eq_or_imp, forall_eq, List.Pairwise.nil, and_true,
      IsEmpty.forall_iff, implies_true]
    constructor
    · intro h; omega
    · intro h; omega
  refine ⟨?_, hiff, ?_, by decide, ?_⟩
  · rw [assign_overclock_slot_eq]
    simp only [List.take, List.map, List.pairwise_cons, List.mem_cons, List.mem_singleton,
      List.not_mem_nil, forall_eq_or_imp, forall_eq, List.Pairwise.nil, and_true,
      IsEmpty.forall_iff, implies_true]
    omega
  · rw [assign_overclock_slot_eq]; rfl
  · intro hm
    rw [hiff]
    have : overclock_khz m = m * 27000 := by
      unfold overclock_khz HFPLL_FREQ_KHZ UINT_RANGE
      exact Nat.mod_eq_of_lt (by omega)
    rw [this]
    omega

/-- C14, evaluated at the multiplier 67, whose frequency equals that of row 14. -/
theorem C14_ladder_monotone_witness :
    ¬ (((assign_overclock_slot freq_table 67).take 16).map (fun e => e.frequency)).Pairwise
      (fun a b => a < b) :=
  (C14_ladder_monotone 67).2.2.2.2 (by decide)

/-! ### Bounds of the scan and frame of the patch -/

/-- A row that can be read lies inside the table. -/
theorem lt_length_of_getElem? (tbl : List acpu_level) (j : Nat) (row : acpu_level)
    (h : tbl[j]? = some row) : j < tbl.length := by
  by_contra hlt
  rw [List.getElem?_eq_none (Nat.le_of_not_lt hlt)] at h
  cases h

/-- A scan that stops has read only rows inside the table: it stops at or after its start
and before the end of the table. -/
theorem skip_used_in_bounds (tbl : List acpu_level) (i slot : Nat)
    (h : skip_used (tbl.drop i) i = some slot) : i ≤ slot ∧ slot < tbl.length := by
  rw [skip_used_eq_head] at h
  have hmem : slot ∈ unused_from (tbl.drop i) i := List.mem_of_mem_head? h
  obtain ⟨hle, row, hrow, _⟩ := (unused_from_mem (tbl.drop i) i slot).1 hmem
  rw [List.getElem?_drop] at hrow
  have : i + (slot - i) = slot := by omega
  rw [this] at hrow
  exact ⟨hle, lt_length_of_getElem? tbl slot row hrow⟩

/-- C15: on every table with at least four rows at position 1 or later whose
`use_for_scaling` is clear, the per-table patch is defined, that is, no scan leaves the
table and the ladder is not read past its end; every row it writes lies at a position
from 1 up to the length of the table, and the table keeps its length; any scan that stops
has stayed inside the table; `acpu_freq_row_update` returns on such a table; and the
ladder loop ends after four rows because from row 12 on the ladder is the four processed
rows followed by the terminator row 16. -/
theorem C15_bounded_scan (m v : Nat) (tbl : List acpu_level) (h : table_ready tbl) :
    (∃ tbl' log, patch_table (assign_overclock_slot freq_table m) v tbl = some (tbl', log) ∧
      (∀ r ∈ log, 1 ≤ r.index ∧ r.index < tbl.length) ∧
      tbl'.length = tbl.length ∧ log.length = 4) ∧
    (∀ i slot, skip_used (tbl.drop i) i = some slot → i ≤ slot ∧ slot < tbl.length) ∧
    (∀ (k : String → Nat) (name : String) (s : State),
      s.freq_table = assign_overclock_slot freq_table m → s.acpu_tbl name = tbl →
      ∃ s1, acpu_freq_row_update k v name s = some s1) ∧
    (assign_overclock_slot freq_table m).drop FREQ_TABLE_START =
      processed_rows m ++ [⟨16, CPUFREQ_TABLE_END⟩] ∧
    (assign_overclock_slot freq_table m)[16]? = some ⟨16, CPUFREQ_TABLE_END⟩ := by
  have hsome : ∃ tbl' log,
      patch_table (assign_overclock_slot freq_table m) v tbl = some (tbl', log) :=
    ⟨_, _, by rw [patch_table_built, if_pos h]⟩
  obtain ⟨tbl', log, hp⟩ := hsome
  obtain ⟨_, _, _, _, hidx, hrows, _, hlen⟩ := patch_table_inv m v tbl tbl' log hp
  refine ⟨⟨tbl', log, hp, ?_, hlen, ?_⟩, skip_used_in_bounds tbl, ?_, built_ladder_drop m, ?_⟩
  · intro r hr
    obtain ⟨hpos, _, _, row0, hrow0, _, _⟩ := hrows r hr
    exact ⟨hpos, lt_length_of_getElem? tbl r.index row0 hrow0⟩
  · have := congrArg List.length hidx
    rw [List.length_map, List.length_take] at this
    rw [this]
    exact Nat.min_eq_left h
  · intro k name s hlad htbl
    apply row_update_total
    intro _
    rw [hlad, htbl, hp]
    rfl
  · rw [assign_overclock_slot_eq]; rfl

/-- C15, evaluated on the sample table, which has eight rows. -/
theorem C15_bounded_scan_witness :
    ∃ tbl' log,
      patch_table (assign_overclock_slot freq_table 71) 1300000 sample_tbl = some (tbl', log) ∧
      (∀ r ∈ log, 1 ≤ r.index ∧ r.index < 8) ∧ tbl'.length = 8 := by
  obtain ⟨tbl', log, h1, h2, h3, _⟩ :=
    (C15_bounded_scan 71 1300000 sample_tbl (by decide)).1
  exact ⟨tbl', log, h1, h2, h3⟩

/-- C16: a defined per-table patch changes only `speed.khz`, `speed.pll_l_val` and
`vdd_core`, and only in the rows it selects: the table keeps its length and all its
`use_for_scaling` flags; every row keeps `use_for_scaling`, `speed.src`,
`speed.pri_src_sel`, `speed.sec_src_sel` and `l2_level`; every row that is not selected is
unchanged in every field; and every selected row is still marked unused afterwards. -/
theorem C16_patch_frame (m v : Nat) (tbl tbl' : List acpu_level) (log : List row_report)
    (h : patch_table (assign_overclock_slot freq_table m) v tbl = some (tbl', log)) :
    tbl'.length = tbl.length ∧
    tbl'.map (fun r => r.use_for_scaling) = tbl.map (fun r => r.use_for_scaling) ∧
    (∀ (j : Nat) (row : acpu_level), tbl[j]? = some row →
      ∃ row', tbl'[j]? = some row' ∧
        row'.use_for_scaling = row.use_for_scaling ∧
        row'.speed.src = row.speed.src ∧
        row'.speed.pri_src_sel = row.speed.pri_src_sel ∧
        row'.speed.sec_src_sel = row.speed.sec_src_sel ∧
        row'.l2_level = row.l2_level ∧
        (j ∉ log.map (fun r => r.index) → row' = row)) ∧
    (∀ r ∈ log, ∃ row', tbl'[r.index]? = some row' ∧ row'.use_for_scaling = 0) := by
  obtain ⟨_, _, htbl, _, _, hrows, hother, hlen⟩ := patch_table_inv m v tbl tbl' log h
  refine ⟨hlen, ?_, ?_, ?_⟩
  · rw [htbl]; exact foldl_write_flags log tbl
  · intro j row hj
    by_cases hmem : j ∈ log.map (fun r => r.index)
    · obtain ⟨r, hr, rfl⟩ := List.mem_map.1 hmem
      obtain ⟨_, _, _, row0, hrow0, _, hget⟩ := hrows r hr
      rw [hj] at hrow0
      cases hrow0
      exact ⟨_, hget, rfl, rfl, rfl, rfl, rfl, fun hn => absurd hmem hn⟩
    · exact ⟨row, by rw [hother j hmem]; exact hj, rfl, rfl, rfl, rfl, rfl, fun _ => rfl⟩
  · intro r hr
    obtain ⟨_, _, _, row0, _, hz, hget⟩ := hrows r hr
    exact ⟨_, hget, hz⟩

/-- C16, evaluated on the sample table: row 2 is selected and keeps its source fields, its
level pointer and its clear flag; row 3 is not selected and is unchanged. -/
theorem C16_patch_frame_witness :
    ∃ (tbl' : List acpu_level) (log : List row_report) (row2 : acpu_level),
      patch_table (assign_overclock_slot freq_table 71) 1300000 sample_tbl = some (tbl', log) ∧
      tbl'[2]? = some row2 ∧ row2.use_for_scaling = 0 ∧ row2.speed.src = 2 ∧
      row2.l2_level = 11 ∧ tbl'[3]? = sample_tbl[3]? := by
  obtain ⟨_, _, h3, _⟩ :=
    C16_patch_frame 71 1300000 sample_tbl _ _ (sample_tbl_patch 1300000)
  obtain ⟨row2, g1, g2, g3, _, _, g6, _⟩ := h3 2 ⟨0, ⟨540000, 2, 0, 0, 20⟩, 11, 975000⟩ rfl
  obtain ⟨row3, k1, _, _, _, _, _, k7⟩ := h3 3 ⟨1, ⟨594000, 2, 0, 0, 22⟩, 11, 975000⟩ rfl
  refine ⟨_, _, row2, sample_tbl_patch 1300000, g1, g2, g3, g6, ?_⟩
  rw [k1, k7 (by decide)]
  rfl

/-! ### The PLL value, the terminator and the reach of the configured voltage -/

/-- C17: for every multiplier `m ≤ 159072` (so that `m * 27000` fits in 32 bits) the
overclock frequency is `m * 27000` and dividing it by 27000 gives `m` back; in every
defined per-table patch the PLL values of the four lines are 60, 64, 67 and `m`; each
written row holds the PLL value of its line, and that value times 27000 is exactly the
frequency of the row, so nothing is lost to truncation. -/
theorem C17_pll_round_trip (m v : Nat) (tbl tbl' : List acpu_level) (log : List row_report)
    (hm : m ≤ 159072)
    (h : patch_table (assign_overclock_slot freq_table m) v tbl = some (tbl', log)) :
    overclock_khz m = m * 27000 ∧
    overclock_khz m / HFPLL_FREQ_KHZ = m ∧
    log.map (fun r => r.pll) = [60, 64, 67, m] ∧
    log.map (fun r => r.khz) = [1620000, 1728000, 1809000, m * 27000] ∧
    (∀ r ∈ log, ∃ row, tbl'[r.index]? = some row ∧
      row.speed.pll_l_val = r.pll ∧ row.speed.khz = r.khz ∧
      row.speed.pll_l_val * HFPLL_FREQ_KHZ = row.speed.khz) := by
  have hk : overclock_khz m = m * 27000 := by
    unfold overclock_khz HFPLL_FREQ_KHZ UINT_RANGE
    exact Nat.mod_eq_of_lt (by omega)
  have hdiv : overclock_khz m / HFPLL_FREQ_KHZ = m := by
    rw [hk]; unfold HFPLL_FREQ_KHZ; omega
  obtain ⟨hr, _, _, _, _, hrows, _, _⟩ := patch_table_inv m v tbl tbl' log h
  obtain ⟨a, b, c, d, more, _, hex⟩ := patch_table_explicit m v tbl hr
  rw [h] at hex
  simp only [Option.some.injEq, Prod.mk.injEq] at hex
  obtain ⟨_, hlog⟩ := hex
  refine ⟨hk, hdiv, ?_, ?_, ?_⟩
  · rw [hlog]
    simp only [List.map_cons, List.map_nil, hdiv]
  · rw [hlog]
    simp only [List.map_cons, List.map_nil, hk]
  · intro r hrmem
    obtain ⟨_, hpll, _, row0, _, _, hget⟩ := hrows r hrmem
    refine ⟨_, hget, hpll.symm, rfl, ?_⟩
    show r.khz / HFPLL_FREQ_KHZ * HFPLL_FREQ_KHZ = r.khz
    rw [hlog] at hrmem
    simp only [List.mem_cons, List.mem_singleton, List.not_mem_nil, or_false] at hrmem
    rcases hrmem with hx | hx | hx | hx
    · rw [hx]
      show (1620000 : Nat) / 27000 * 27000 = 1620000
      decide
    · rw [hx]
      show (1728000 : Nat) / 27000 * 27000 = 1728000
      decide
    · rw [hx]
      show (1809000 : Nat) / 27000 * 27000 = 1809000
      decide
    · rw [hx]
      show overclock_khz m / HFPLL_FREQ_KHZ * HFPLL_FREQ_KHZ = overclock_khz m
      rw [hdiv, hk]; rfl

/-- C17, evaluated on the sample table at the multiplier 80. -/
theorem C17_pll_round_trip_witness :
    overclock_khz 80 / HFPLL_FREQ_KHZ = 80 ∧
    ([ ⟨2, 1620000, 60, 1200000⟩, ⟨4, 1728000, 64, 1200000⟩, ⟨5, 1809000, 67, 1250000⟩,
       ⟨6, 2160000, 80, 1300000⟩ ] : List row_report).map (fun r => r.pll) = [60, 64, 67, 80] :=
  have h := C17_pll_round_trip 80 1300000 sample_tbl _ _ (by decide)
    (show patch_table (assign_overclock_slot freq_table 80) 1300000 sample_tbl = some (_, _)
      from rfl)
  ⟨h.2.1, h.2.2.1⟩

/-- Rows of a ladder after row 16 do not matter to the per-table patch. -/
theorem patch_table_ignores_tail (m v : Nat) (tbl : List acpu_level)
    (tail : List cpufreq_frequency_table) :
    patch_table (assign_overclock_slot freq_table m ++ tail) v tbl =
      patch_table (assign_overclock_slot freq_table m) v tbl := by
  have hdrop : (assign_overclock_slot freq_table m ++ tail).drop FREQ_TABLE_START =
      processed_rows m ++ (⟨16, CPUFREQ_TABLE_END⟩ :: tail) := by
    rw [assign_overclock_slot_eq]; rfl
  rw [patch_table_built]
  unfold patch_table
  rw [hdrop]
  by_cases h : table_ready tbl
  · rw [if_pos h]
    have := row_loop_some v ⟨16, CPUFREQ_TABLE_END⟩ tail rfl (processed_rows m) 1 tbl []
      (processed_rows_ne_end m) h
    simpa [unused_slots] using this
  · rw [if_neg h]
    have hlt : (unused_from (tbl.drop 1) 1).length < (processed_rows m).length := by
      have : ¬ 4 ≤ (unused_slots tbl).length := h
      unfold unused_slots at this
      simp only [processed_rows, List.length_cons, List.length_nil]
      omega
    exact row_loop_none v ⟨16, CPUFREQ_TABLE_END⟩ tail (processed_rows m) 1 tbl []
      (processed_rows_ne_end m) hlt

/-- C18: for every multiplier `m` the overclock frequency `m * 27000 mod 2^32` is a
multiple of 8, whereas the terminator 0xFFFFFFFE is not, so the two never coincide; the
built ladder therefore has exactly 16 rows before its first terminator and exactly 16
rows that are not a terminator; every defined per-table patch processes exactly the
four ladder rows 12 to 15 and writes exactly four distinct rows; the patch is defined
exactly on the tables with four unused rows; and it does not depend on anything that
comes after ladder row 16. -/
theorem C18_never_terminator (m : Nat) :
    overclock_khz m % 8 = 0 ∧
    CPUFREQ_TABLE_END = 4294967294 ∧ CPUFREQ_TABLE_END % 8 ≠ 0 ∧
    overclock_khz m ≠ CPUFREQ_TABLE_END ∧
    ((assign_overclock_slot freq_table m).takeWhile
      (fun e => decide (e.frequency ≠ CPUFREQ_TABLE_END))).length = 16 ∧
    ((assign_overclock_slot freq_table m).filter
      (fun e => decide (e.frequency ≠ CPUFREQ_TABLE_END))).length = 16 ∧
    (∀ (v : Nat) (tbl tbl' : List acpu_level) (log : List row_report),
      patch_table (assign_overclock_slot freq_table m) v tbl = some (tbl', log) →
      log.length = 4 ∧
      log.map (fun r => r.khz) =
        (((assign_overclock_slot freq_table m).drop 12).take 4).map (fun e => e.frequency) ∧
      (log.map (fun r => r.index)).Pairwise (fun a b => a < b)) ∧
    (∀ (v : Nat) (tbl : List acpu_level),
      (patch_table (assign_overclock_slot freq_table m) v tbl).isSome = true ↔
        table_ready tbl) ∧
    (∀ (v : Nat) (tbl : List acpu_level) (tail : List cpufreq_frequency_table),
      patch_table (assign_overclock_slot freq_table m ++ tail) v tbl =
        patch_table (assign_overclock_slot freq_table m) v tbl) := by
  have hne := overclock_khz_ne_end m
  have hne2 : ¬ overclock_khz m = 4294967294 := hne
  refine ⟨?_, rfl, by decide, hne, ?_, ?_, ?_, ?_, patch_table_ignores_tail m⟩
  · unfold overclock_khz HFPLL_FREQ_KHZ UINT_RANGE
    omega
  · rw [assign_overclock_slot_eq]
    simp [List.takeWhile, CPUFREQ_TABLE_END, hne2]
  · rw [assign_overclock_slot_eq]
    simp [List.filter, CPUFREQ_TABLE_END, hne2]
  · intro v tbl tbl' log h
    obtain ⟨hr, hlog, _, hpw, hidx, _, _, _⟩ := patch_table_inv m v tbl tbl' log h
    have hkhz := zipWith_report_khz v (processed_rows m) (unused_slots tbl) hr
    rw [← hlog] at hkhz
    refine ⟨?_, ?_, ?_⟩
    · have := congrArg List.length hidx
      rw [List.length_map, List.length_take] at this
      rw [this]
      exact Nat.min_eq_left hr
    · rw [hkhz, assign_overclock_slot_eq]; rfl
    · rw [List.pairwise_map]; exact hpw
  · intro v tbl
    rw [patch_table_built]
    by_cases h : table_ready tbl
    · rw [if_pos h]; exact ⟨fun _ => h, fun _ => rfl⟩
    · rw [if_neg h]
      exact ⟨fun hs => (by cases hs), fun hr => absurd hr h⟩

/-- C18, evaluated at the multiplier 159073, where the product wraps around to 3704, and on
the sample table. -/
theorem C18_never_terminator_witness :
    overclock_khz 159073 = 3704 ∧ overclock_khz 159073 % 8 = 0 ∧
    ([ ⟨2, 1620000, 60, 1200000⟩, ⟨4, 1728000, 64, 1200000⟩, ⟨5, 1809000, 67, 1250000⟩,
       ⟨6, 3704, 0, 1300000⟩ ] : List row_report).length = 4 :=
  ⟨rfl, (C18_never_terminator 159073).1,
    ((C18_never_terminator 159073).2.2.2.2.2.2.1 1300000 sample_tbl _ _
      (show patch_table (assign_overclock_slot freq_table 159073) 1300000 sample_tbl =
        some (_, _) from rfl)).1⟩

/-- The voltage lookup of a breakpoint does not depend on the default. -/
theorem find_vdd_breakpoint (f v1 v2 : Nat)
    (hf : f = 1620000 ∨ f = 1728000 ∨ f = 1809000 ∨ f = 1917000) :
    find_vdd freq_vdd_table f v1 = find_vdd freq_vdd_table f v2 := by
  rcases hf with h | h | h | h
  all_goals subst h; rfl

/-- C19: for every multiplier `m` and every two configured voltages `v1` and `v2`, two
defined runs of the per-table patch on the same table write 1200000, 1200000 and 1250000
for ladder rows 12, 13 and 14; they select the same rows and write the same frequencies
and PLL values; their results agree in every row other than the one that received the
overclock entry, and there they agree in every field other than `vdd_core`, which holds
the voltage lookup of the overclock frequency under `v1` and under `v2`; and when the
overclock frequency is one of 1620000, 1728000, 1809000, 1917000, as it is for the default
`m = 71`, the two results and the printed lines are identical. -/
theorem C19_voltage_reach (m v1 v2 : Nat) (tbl t1 t2 : List acpu_level)
    (l1 l2 : List row_report)
    (h1 : patch_table (assign_overclock_slot freq_table m) v1 tbl = some (t1, l1))
    (h2 : patch_table (assign_overclock_slot freq_table m) v2 tbl = some (t2, l2)) :
    (l1.map (fun r => r.vdd)).take 3 = [1200000, 1200000, 1250000] ∧
    (l2.map (fun r => r.vdd)).take 3 = [1200000, 1200000, 1250000] ∧
    l1.map (fun r => r.index) = l2.map (fun r => r.index) ∧
    l1.map (fun r => r.khz) = l2.map (fun r => r.khz) ∧
    l1.map (fun r => r.pll) = l2.map (fun r => r.pll) ∧
    (∃ d r1 r2, (l1.map (fun r => r.index))[3]? = some d ∧
      (l1.map (fun r => r.khz))[3]? = some (overclock_khz m) ∧
      (∀ j, j ≠ d → t1[j]? = t2[j]?) ∧
      t1[d]? = some r1 ∧ t2[d]? = some r2 ∧
      { r1 with vdd_core := 0 } = { r2 with vdd_core := 0 } ∧
      r1.vdd_core = find_vdd freq_vdd_table (overclock_khz m) v1 ∧
      r2.vdd_core = find_vdd freq_vdd_table (overclock_khz m) v2) ∧
    ((overclock_khz m = 1620000 ∨ overclock_khz m = 1728000 ∨ overclock_khz m = 1809000 ∨
        overclock_khz m = 1917000) → t1 = t2 ∧ l1 = l2) ∧
    overclock_khz 71 = 1917000 := by
  obtain ⟨hr, _, _, _, _, hrows1, _, _⟩ := patch_table_inv m v1 tbl t1 l1 h1
  obtain ⟨_, _, _, _, _, hrows2, _, _⟩ := patch_table_inv m v2 tbl t2 l2 h2
  obtain ⟨a, b, c, d, more, hs, hex1⟩ := patch_table_explicit m v1 tbl hr
  obtain ⟨a2, b2, c2, d2, more2, hs2, hex2⟩ := patch_table_explicit m v2 tbl hr
  rw [hs] at hs2
  simp only [List.cons.injEq] at hs2
  obtain ⟨rfl, rfl, rfl, rfl, rfl⟩ := hs2
  rw [h1] at hex1
  rw [h2] at hex2
  simp only [Option.some.injEq, Prod.mk.injEq] at hex1 hex2
  obtain ⟨ht1, hl1⟩ := hex1
  obtain ⟨ht2, hl2⟩ := hex2
  have hm1 : (⟨d, overclock_khz m, overclock_khz m / HFPLL_FREQ_KHZ,
      find_vdd freq_vdd_table (overclock_khz m) v1⟩ : row_report) ∈ l1 := by
    rw [hl1]
    simp
  have hm2 : (⟨d, overclock_khz m, overclock_khz m / HFPLL_FREQ_KHZ,
      find_vdd freq_vdd_table (overclock_khz m) v2⟩ : row_report) ∈ l2 := by
    rw [hl2]
    simp
  obtain ⟨_, _, _, row1, hrow1, _, hget1⟩ := hrows1 _ hm1
  obtain ⟨_, _, _, row2, hrow2, _, hget2⟩ := hrows2 _ hm2
  have hsame : row1 = row2 := by
    have := hrow1.symm.trans hrow2
    exact Option.some.inj this
  subst hsame
  refine ⟨by rw [hl1]; rfl, by rw [hl2]; rfl, by rw [hl1, hl2]; rfl, by rw [hl1, hl2]; rfl,
    by rw [hl1, hl2]; rfl, ?_, ?_, rfl⟩
  · refine ⟨d, _, _, by rw [hl1]; rfl, by rw [hl1]; rfl, ?_, hget1, hget2, rfl, rfl, rfl⟩
    intro j hj
    rw [ht1, ht2]
    unfold write_row
    rw [List.getElem?_modify_ne _ _ (Ne.symm hj), List.getElem?_modify_ne _ _ (Ne.symm hj)]
  · intro hbp
    have hv := find_vdd_breakpoint (overclock_khz m) v1 v2 hbp
    constructor
    · rw [ht1, ht2, hv]
    · rw [hl1, hl2, hv]

/-- C19, evaluated on the sample table at the default multiplier with configured voltages
1300000 and 1100000: the two results are one and the same table. -/
theorem C19_voltage_reach_witness :
    ∃ t1 l1 t2 l2,
      patch_table (assign_overclock_slot freq_table 71) 1300000 sample_tbl = some (t1, l1) ∧
      patch_table (assign_overclock_slot freq_table 71) 1100000 sample_tbl = some (t2, l2) ∧
      t1 = t2 ∧ l1 = l2 :=
  ⟨_, _, _, _, sample_tbl_patch 1300000, sample_tbl_patch 1100000,
    (C19_voltage_reach 71 1300000 1100000 sample_tbl _ _ _ _ (sample_tbl_patch 1300000)
      (sample_tbl_patch 1100000)).2.2.2.2.2.2.1 (by decide)⟩

end KraitOC
